import Mathlib

/-!
Verification development for the pcpacktool repository (Ultimate Spider-Man
PCPACK importer/exporter).  The repository holds two near-identical
implementations of one container codec:

* `pcpacktool.cpp` — the command-line tool (namespace `CLI` below);
* `pcpacktoolgui/pcpacktool_gui.cpp` — the Win32 GUI tool (namespace `GUI`).

Files are modelled as lists of bytes (`Nat`, each < 256); packed structs are
modelled field-by-field with explicit little-endian reads and writes, so the
byte-level serialisation of the import paths can be checked on concrete
containers.  Strings are modelled as `List Char` where the C++ works on
`std::string` text (dictionary loading, file names) and as `List Nat` where
it works on raw bytes (file-name sanitisation, which edits `char`s whose
signedness matters).
-/

set_option maxRecDepth 10000

namespace PCPack

/-- Rounding helper `align_up` of pcpacktool_gui.cpp:254 (guarded `a <= 1`),
identical to `align_up_sz` of pcpacktool.cpp:396 (guarded `a == 0 || a == 1`). -/
def align_up (x a : Nat) : Nat :=
  if a ≤ 1 then x else if x % a = 0 then x else x + (a - x % a)

/-- Rounding helper `align_up` of pcpacktool.cpp:228: no small-boundary guard,
`m = x % i; return m ? (x + (i - m)) : x`.  Only ever called with `i ∈ {4, 8}`,
where it agrees with `align_up`. -/
def align_up_cli (x i : Nat) : Nat :=
  if x % i = 0 then x else x + (i - x % i)

/-- `resource_location` (16 bytes): content hash, 32-bit type code, offset
relative to the payload base, byte size. -/
structure ResLoc where
  hash : Nat
  rtype : Nat
  offset : Nat
  size : Nat
deriving DecidableEq

/-- `tlresource_location` (12 bytes): content hash, 8-bit category byte,
three padding bytes (carried verbatim), offset relative to the payload base. -/
structure TLLoc where
  name : Nat
  tltype : Nat
  pad : List Nat
  offset : Nat
deriving DecidableEq

/-- Little-endian 16-bit read at index `i` (out-of-range bytes read as 0;
callers bound-check first where the C++ does). -/
def le16 (b : List Nat) (i : Nat) : Nat :=
  b.getD i 0 + 256 * b.getD (i + 1) 0

/-- Little-endian 32-bit read at index `i`. -/
def le32 (b : List Nat) (i : Nat) : Nat :=
  b.getD i 0 + 256 * b.getD (i + 1) 0 + 65536 * b.getD (i + 2) 0 +
    16777216 * b.getD (i + 3) 0

/-- Little-endian 32-bit write (4 bytes). -/
def wle32 (v : Nat) : List Nat :=
  [v % 256, v / 256 % 256, v / 65536 % 256, v / 16777216 % 256]

/-- `read_exact` (pcpacktool.cpp:266): reading `n` bytes at `pos` succeeds
iff the range lies inside the file, else the stream read fails ("Unexpected
EOF"). -/
def readChunk (file : List Nat) (pos n : Nat) : Option (List Nat) :=
  if pos + n ≤ file.length then some ((file.drop pos).take n) else none

/-- Split a flat byte list into `k` consecutive records of `es` bytes. -/
def chunks (es : Nat) : Nat → List Nat → List (List Nat)
  | 0, _ => []
  | k + 1, l => l.take es :: chunks es k (l.drop es)

/-- Decode one 16-byte `resource_location` record. -/
def parseResLoc (b : List Nat) : ResLoc :=
  ⟨le32 b 0, le32 b 4, le32 b 8, le32 b 12⟩

/-- Decode one 12-byte `tlresource_location` record. -/
def parseTL (b : List Nat) : TLLoc :=
  ⟨le32 b 0, b.getD 4 0, [b.getD 5 0, b.getD 6 0, b.getD 7 0], le32 b 8⟩

/-- Encode a `resource_location` back to its 16 bytes (mirror of the
`memcpy` of the packed struct). -/
def serializeResLoc (rl : ResLoc) : List Nat :=
  wle32 rl.hash ++ wle32 rl.rtype ++ wle32 rl.offset ++ wle32 rl.size

/-- Encode a `tlresource_location` back to its 12 bytes, padding bytes
carried verbatim. -/
def serializeTL (t : TLLoc) : List Nat :=
  wle32 t.name ++ [t.tltype % 256] ++ t.pad ++ wle32 t.offset

/-- Overwrite `out[start .. start + src.length)` with `src` (model of
`memcpy(&out[start], src, n)`; callers guarantee the range fits). -/
def overwrite (out : List Nat) (start : Nat) (src : List Nat) : List Nat :=
  out.take start ++ src ++ out.drop (start + src.length)

/-- Read `n` bytes at `pos`, bytes past the end of the file read as 0.
Used only to model C++ reads that are *not* bounds-checked. -/
def readChunkD (file : List Nat) (pos n : Nat) : List Nat :=
  (List.range n).map fun k => file.getD (pos + k) 0

end PCPack

namespace CLI

open PCPack

/-- In-memory model of pcpacktool.cpp's `ParsedPack`: original bytes, the
header fields the codec uses, the three raw header/directory blobs (copied
verbatim on import), the parent count, the primary resource locations and
the eleven type-list vectors in their fixed order. -/
structure ParsedPack where
  wholeFile : List Nat
  directory_offset : Nat
  base : Nat
  headerBytes : List Nat
  mashBytes : List Nat
  dirBytes : List Nat
  parentsCount : Nat
  resLocs : List ResLoc
  tls : List (List TLLoc)
deriving DecidableEq

/-- One vector read of `parse_vectors_after_directory` (pcpacktool.cpp:295):
`rebase(8); rebase(4);` read `count * es` bytes when `count > 0` (failing on
EOF), then `rebase(4)`.  Returns the raw records and the stream position. -/
def readVec (file : List Nat) (pos count es : Nat) :
    Option (List (List Nat) × Nat) :=
  let p1 := align_up_cli (align_up_cli pos 8) 4
  if count = 0 then
    some ([], align_up_cli p1 4)
  else
    match readChunk file p1 (count * es) with
    | none => none
    | some raw => some (chunks es count raw, align_up_cli (p1 + count * es) 4)

/-- The eleven type-list vector reads in their fixed order, given the
directory blob (counts at byte offsets 20, 28, ..., 100). -/
def readTLVecs (file : List Nat) (dirB : List Nat) :
    Nat → Nat → Option (List (List TLLoc) × Nat)
  | pos, 0 => some ([], pos)
  | pos, k + 1 =>
    match readVec file pos (le16 dirB (20 + 8 * (11 - (k + 1)))) 12 with
    | none => none
    | some (raw, p2) =>
      match readTLVecs file dirB p2 k with
      | none => none
      | some (rest, p3) => some (raw.map parseTL :: rest, p3)

/-- `parse_pack` (pcpacktool.cpp:330): read the 44-byte header, seek to
`directory_offset`, read the 16-byte mash header and the 700-byte
resource directory, then unmash the thirteen vectors with the alignment
walk of `parse_vectors_after_directory`.  Fails ("Unexpected EOF") exactly
when a read runs past the end of the file. -/
def parse_pack (file : List Nat) : Option ParsedPack := do
  let header ← readChunk file 0 44
  let dirOff := le32 header 24
  let base := le32 header 28
  let mash ← readChunk file dirOff 16
  let dirB ← readChunk file (dirOff + 16) 700
  let pos0 := dirOff + 16 + 700
  let p1 := align_up_cli (align_up_cli pos0 8) 4
  let pc := le16 dirB 4
  let p2 ←
    if pc = 0 then some p1
    else match readChunk file p1 (pc * 4) with
      | none => none
      | some _ => some (p1 + pc * 4)
  let p3 := align_up_cli p2 4
  let rc := le16 dirB 12
  match readVec file p3 rc 16 with
  | none => none
  | some (rawRL, p4) =>
    match readTLVecs file dirB p4 11 with
    | none => none
    | some (tls, _) =>
      some ⟨file, dirOff, base, header, mash, dirB, pc, rawRL.map parseResLoc, tls⟩

/-- The output buffer of the import serialiser: the emitted bytes together
with the vector's size.  `out.size()` is O(1) on a `std::vector`; carrying
the size alongside the byte list keeps the padding arithmetic of the
embedding linear.  Every constructor below preserves `snd = fst.length`. -/
abbrev OutBuf := List Nat × Nat

/-- `write_align_with` (pcpacktool.cpp:233): pad `out` with `fill` bytes to
the next multiple of `a` (the C++ reads `out.size()`, here the tracked
size). -/
def emit_align (fill : Nat) (out : OutBuf) (a : Nat) : OutBuf :=
  (out.1 ++ List.replicate (align_up_cli out.2 a - out.2) fill,
   align_up_cli out.2 a)

/-- `emit_vec_bytes` (pcpacktool.cpp:495): align 8, align 4, append the
record bytes, align 4 — also the shape emitted for an empty vector
(three aligns, pcpacktool.cpp:510,516). -/
def emit_vec (out : OutBuf) (payload : List Nat) : OutBuf :=
  let o2 := emit_align 0xE3 (emit_align 0xE3 out 8) 4
  emit_align 0xE3 (o2.1 ++ payload, o2.2 + payload.length) 4

/-- Replacement sizes of the `--update-dir` scan (pcpacktool.cpp:463-485):
a resource keeps its original size unless the input folder holds a
replacement file (looked up under `platform_name(hash, type)`, here modelled
as a map keyed by the (hash, type) pair that determines that name). -/
def cli_new_sizes (locs : List ResLoc)
    (folder : Nat → Nat → Option (List Nat)) : List Nat :=
  locs.map fun rl =>
    match folder rl.hash rl.rtype with
    | some d => d.length
    | none => rl.size

/-- Absolute payload starts of the `--update-dir` scan: the cursor begins at
`base`, is aligned with `align_up_sz` to `g_payloadAlign` before each
resource, then advances by the resource's (possibly new) size. -/
def cli_new_starts (sizes : List Nat) (cursor a : Nat) : List Nat :=
  match sizes with
  | [] => []
  | sz :: rest =>
    let st := align_up cursor a
    st :: cli_new_starts rest (st + sz) a

/-- The patched `workingResLocs` (pcpacktool.cpp:488-491): when
`--update-dir` is on, `m_offset := newStart - base` and `m_size := newSize`;
otherwise the parsed entries unchanged. -/
def workingResLocs (P : ParsedPack) (updateDir : Bool) (a : Nat)
    (folder : Nat → Nat → Option (List Nat)) : List ResLoc :=
  if updateDir then
    let sizes := cli_new_sizes P.resLocs folder
    let starts := cli_new_starts sizes P.base a
    (P.resLocs.zip (starts.zip sizes)).map fun p =>
      ⟨p.1.hash, p.1.rtype, p.2.1 - P.base, p.2.2⟩
  else P.resLocs

/-- Pad `out` with `fill` up to size `n` (no-op when already long enough):
`out.resize(n, fill)` never shrinks in the import paths, where the final
length is taken as a separate max. -/
def padTo (out : OutBuf) (n : Nat) (fill : Nat) : OutBuf :=
  (out.1 ++ List.replicate (n - out.2) fill, max out.2 n)

/-- The serialized prefix of `do_import` (pcpacktool.cpp:416-529): header
bytes, zero padding up to `directory_offset`, mash header, directory blob
with its `base` field (bytes 124..127) rewritten to the header base, then
the thirteen vectors — a single zero word standing in for the parents
vector when its count is positive, the (possibly patched) resource
locations, and the eleven type-list vectors *unchanged*. -/
def import_prefix (P : ParsedPack) (working : List ResLoc) : OutBuf :=
  let out1 := padTo (P.headerBytes, P.headerBytes.length) P.directory_offset 0
  let wdir := overwrite P.dirBytes 124 (wle32 P.base)
  let out2 : OutBuf := (out1.1 ++ P.mashBytes ++ wdir,
    out1.2 + P.mashBytes.length + wdir.length)
  let out3 := emit_align 0xE3 (emit_align 0xE3 out2 8) 4
  let out4 : OutBuf :=
    if P.parentsCount > 0 then (out3.1 ++ wle32 0, out3.2 + 4) else out3
  let out5 := emit_align 0xE3 out4 4
  let out6 := emit_vec out5 ((working.map serializeResLoc).flatten)
  P.tls.foldl (fun o v => emit_vec o ((v.map serializeTL).flatten)) out6

/-- Payload bytes written for resource `i` on the `--update-dir` path
(pcpacktool.cpp:538-567): the replacement file's bytes clipped/zero-padded
to the new size, or the original bytes copied from the old absolute range
and zero-padded. -/
def import_payload_update (P : ParsedPack)
    (folder : Nat → Nat → Option (List Nat)) (rlOld : ResLoc) (size : Nat) :
    List Nat :=
  match folder rlOld.hash rlOld.rtype with
  | some d => d.take size ++ List.replicate (size - d.length) 0
  | none =>
    let oldStart := P.base + rlOld.offset
    let copyN := min size rlOld.size
    readChunkD P.wholeFile oldStart copyN ++ List.replicate (size - copyN) 0

/-- `do_import` (pcpacktool.cpp:408-619) under an input folder modelled as a
map from (hash, type) to replacement bytes.  With `--update-dir` the
payloads are written at the freshly assigned absolute starts, growing the
buffer with zero fill; on the legacy path the buffer is padded to the
original file length and every payload is written back at its original
absolute range, aborting ("Payload range out of bounds in output") if a
range does not fit. -/
def do_import (P : ParsedPack) (updateDir : Bool) (a : Nat)
    (folder : Nat → Nat → Option (List Nat)) : Option (List Nat) :=
  let working := workingResLocs P updateDir a folder
  let pre := import_prefix P working
  if updateDir then
    some ((P.resLocs.zip working).foldl
      (fun o p =>
        let start := P.base + p.2.offset
        let grown := padTo o (start + p.2.size) 0
        (overwrite grown.1 start (import_payload_update P folder p.1 p.2.size),
         grown.2))
      pre).1
  else
    let out0 := padTo pre P.wholeFile.length 0
    Option.map Prod.fst
      (P.resLocs.foldl
        (fun acc rl => match acc with
          | none => none
          | some o =>
            let start := P.base + rl.offset
            if start + rl.size ≤ o.2 then
              some ((overwrite o.1 start
                (match folder rl.hash rl.rtype with
                 | some d => d.take rl.size ++
                     List.replicate (rl.size - min d.length rl.size) 0
                 | none => readChunkD P.wholeFile start rl.size), o.2) : OutBuf)
            else none)
        (some out0))

/-- Parse then rebuild with an empty input folder on the legacy
(no `--update-dir`) path: the degenerate overwrite-in-place mode. -/
def roundTrip (file : List Nat) : Option (List Nat) :=
  match parse_pack file with
  | none => none
  | some P => do_import P false 1 (fun _ _ => none)

end CLI

namespace GUI

open PCPack

/-- The two explicit bounds checks of `parse_pcpack`
(pcpacktool_gui.cpp:372-378): file at least header-sized, and the
directory offset plus mash header plus directory inside the file. -/
def parse_checks (file : List Nat) : Bool :=
  decide (44 ≤ file.length) && decide (le32 file 24 + 716 ≤ file.length)

/-- One vector of the GUI parse walk: `ra()` (align 8 then 4), advance over
`n * es` record bytes, align 4 — tracking whether the unchecked `memcpy`
at this position would touch bytes past the end of the file. -/
def gui_vec_step (len : Nat) (st : Nat × Bool) (ne : Nat × Nat) : Nat × Bool :=
  let pos := align_up (align_up st.1 8) 4
  let oob := st.2 || (decide (ne.1 ≠ 0) && decide (len < pos + ne.1 * ne.2))
  (align_up (pos + ne.1 * ne.2) 4, oob)

/-- The thirteen (count, element-size) pairs of the GUI parse walk, read from
the directory blob: parents (4-byte words), resource locations (16 bytes),
eleven type-lists (12 bytes). -/
def gui_counts (dirB : List Nat) : List (Nat × Nat) :=
  (le16 dirB 4, 4) :: (le16 dirB 12, 16) ::
    (List.range 11).map fun k => (le16 dirB (20 + 8 * k), 12)

/-- `parse_pcpack` passes its two explicit checks yet one of its vector
`memcpy`s reads past the end of the raw buffer: the out-of-bounds read the
C++ performs without failing (undefined behavior). -/
def parse_pcpack_oob (file : List Nat) : Bool :=
  parse_checks file &&
  (let dirOff := le32 file 24
   let dirB := (file.drop (dirOff + 16)).take 700
   ((gui_counts dirB).foldl (gui_vec_step file.length)
     (dirOff + 716, false)).2)

/-- One vector read of the GUI parse walk (`ri32`/`rrl`/`rtl`,
pcpacktool_gui.cpp:386-400): `ra()`, unchecked `memcpy` of `n * es` bytes
(bytes past the end of the buffer modelled as reading 0), align 4. -/
def readVecD (file : List Nat) (pos n es : Nat) : List (List Nat) × Nat :=
  let p1 := align_up (align_up pos 8) 4
  (chunks es n (readChunkD file p1 (n * es)), align_up (p1 + n * es) 4)

/-- In-memory model of the GUI `ParsedPack`: raw bytes, header fields,
directory blob, and the decoded vectors. -/
structure GUIPack where
  raw : List Nat
  directory_offset : Nat
  base : Nat
  dirBytes : List Nat
  parents : List Nat
  res_locs : List ResLoc
  tls : List (List TLLoc)

/-- The eleven GUI type-list reads in order, mirroring
pcpacktool_gui.cpp:404-414. -/
def readTLVecsD (file : List Nat) (dirB : List Nat) :
    Nat → Nat → List (List TLLoc) × Nat
  | pos, 0 => ([], pos)
  | pos, k + 1 =>
    let r := readVecD file pos (le16 dirB (20 + 8 * (11 - (k + 1)))) 12
    let rest := readTLVecsD file dirB r.2 k
    (r.1.map parseTL :: rest.1, rest.2)

/-- `parse_pcpack` (pcpacktool_gui.cpp:367-429): the two explicit checks,
then the thirteen vector reads, which the C++ does *not* bounds-check
(`parse_pcpack_oob` records when such a read leaves the buffer). -/
def parse_pcpack (file : List Nat) : Option GUIPack :=
  if 44 ≤ file.length then
    let dirOff := le32 file 24
    if dirOff + 716 ≤ file.length then
      let dirB := (file.drop (dirOff + 16)).take 700
      let pos0 := dirOff + 716
      let pr := readVecD file pos0 (le16 dirB 4) 4
      let rr := readVecD file pr.2 (le16 dirB 12) 16
      let tl := readTLVecsD file dirB rr.2 11
      some ⟨file, dirOff, le32 file 28, dirB,
        pr.1.map (fun b => le32 b 0), rr.1.map parseResLoc, tl.1⟩
    else none
  else none

/-- `do_export_all` (pcpacktool_gui.cpp:435-452) restricted to what it
writes: the absolute ranges `(base + offset, size)` it extracts.  An entry
whose end `base + offset + size` exceeds the raw length is skipped
(`continue`) and the loop carries on with the remaining entries. -/
def do_export_all_ranges (base rawLen : Nat) : List ResLoc → List (Nat × Nat)
  | [] => []
  | rl :: rest =>
    if base + rl.offset + rl.size ≤ rawLen then
      (base + rl.offset, rl.size) :: do_export_all_ranges base rawLen rest
    else do_export_all_ranges base rawLen rest

/-- The new (offset, size) pairs of GUI `do_import`
(pcpacktool_gui.cpp:475-490): walk the resources in order with index `i` and
a cursor starting at 0; the size is the replacement's byte count when index
`i` has one, else the original size; the cursor is aligned to `align_val`
before each resource and advanced by the new size. -/
def gui_nres_go (repl : Nat → Option Nat) (a : Nat) :
    List ResLoc → Nat → Nat → List (Nat × Nat)
  | [], _, _ => []
  | rl :: rest, i, cursor =>
    let nsize := match repl i with | some sz => sz | none => rl.size
    let noff := align_up cursor a
    (noff, nsize) :: gui_nres_go repl a rest (i + 1) (noff + nsize)

/-- New (offset, size) pairs for the whole resource array (`nres`). -/
def gui_nres (locs : List ResLoc) (repl : Nat → Option Nat) (a : Nat) :
    List (Nat × Nat) :=
  gui_nres_go repl a locs 0 0

/-- `utl` (pcpacktool_gui.cpp:492-499): scan the (old resource, new offset)
pairs in order; the first pair whose old range `[m_offset, m_offset+m_size)`
contains `old_off` maps it to `new_offset + (old_off - m_offset)`; if no
pair contains it, it is returned unchanged. -/
def utl : List (ResLoc × Nat) → Nat → Nat
  | [], off => off
  | (rl, noff) :: rest, off =>
    if rl.offset ≤ off ∧ off < rl.offset + rl.size then noff + (off - rl.offset)
    else utl rest off

/-- `uv` (pcpacktool_gui.cpp:500): rewrite every type-list entry's offset
through `utl`. -/
def uv (pairs : List (ResLoc × Nat)) (v : List TLLoc) : List TLLoc :=
  v.map fun t => ⟨t.name, t.tltype, t.pad, utl pairs t.offset⟩

end GUI

namespace GUI

open PCPack

/-- One item of `do_reimport_from_folder`'s working set
(pcpacktool_gui.cpp:590-597): key, payload length, and — for items seeded
from the old pack — the old offset and size kept for type-list remapping. -/
structure RItem where
  hash : Nat
  rtype : Nat
  dataLen : Nat
  has_old : Bool
  old_off : Nat
  old_size : Nat
deriving DecidableEq

/-- The order `std::sort` establishes at pcpacktool_gui.cpp:663-666 with the
strict comparator `(a.type < b.type) || (a.type == b.type && a.hash < b.hash)`:
its reflexive closure, by type then hash. -/
def itemLe (x y : RItem) : Prop :=
  x.rtype < y.rtype ∨ (x.rtype = y.rtype ∧ x.hash ≤ y.hash)

instance : DecidableRel itemLe := fun a b => by
  unfold itemLe; infer_instance

instance : IsTotal RItem itemLe := by
  constructor
  intro a b
  unfold itemLe
  omega

instance : IsTrans RItem itemLe := by
  constructor
  intro a b c hab hbc
  unfold itemLe at *
  omega

/-- The sorted working set (`std::sort` guarantees a permutation ordered by
`itemLe`; ties carry equal keys, so any sorted permutation has the same
key sequence — modelled with insertion sort). -/
def sortItems (l : List RItem) : List RItem :=
  List.insertionSort itemLe l

/-- The type-range loop of pcpacktool_gui.cpp:680-692: both 70-entry tables
are zeroed, then for each index `i` in sorted order with `type < 70` the
count `type_end_idxs[type]` is incremented, and `type_start_idxs[type]` is
set to `i` when the count was still zero. -/
def typeRangeLoop : List RItem → Nat → (Nat → Nat) → (Nat → Nat) →
    ((Nat → Nat) × (Nat → Nat))
  | [], _, s, c => (s, c)
  | x :: rest, i, s, c =>
    if x.rtype < 70 then
      typeRangeLoop rest (i + 1)
        (if c x.rtype = 0 then Function.update s x.rtype i else s)
        (Function.update c x.rtype (c x.rtype + 1))
    else typeRangeLoop rest (i + 1) s c

/-- `type_start_idxs` and `type_end_idxs` (the latter used as a COUNT) as
recomputed by the reimport. -/
def computeTypeRanges (l : List RItem) : (Nat → Nat) × (Nat → Nat) :=
  typeRangeLoop l 0 (fun _ => 0) (fun _ => 0)

/-- Offset assignment of pcpacktool_gui.cpp:695-700: cursor from 0, aligned
to `align_val` before each item, advanced by the item's payload length. -/
def reimport_offsets_go (a : Nat) : List RItem → Nat → List Nat
  | [], _ => []
  | x :: rest, cursor =>
    let o := align_up cursor a
    o :: reimport_offsets_go a rest (o + x.dataLen)

/-- Offsets for the whole sorted working set. -/
def reimport_offsets (l : List RItem) (a : Nat) : List Nat :=
  reimport_offsets_go a l 0

/-- The rebuilt `res_locs` array (pcpacktool_gui.cpp:669-676 with the offsets
of lines 695-700): entry `i` takes item `i`'s key, its payload length as
size, and the assigned offset. -/
def reimport_res_locs (l : List RItem) (a : Nat) : List ResLoc :=
  (l.zip (reimport_offsets l a)).map fun p =>
    ⟨p.1.hash, p.1.rtype, p.2, p.1.dataLen⟩

/-- `old_to_new` (pcpacktool_gui.cpp:786-803): scan the (sorted) items; the
first item with `has_old` whose old range contains `old_off` is relocated to
the offset of the first rebuilt `res_locs` entry carrying the item's
(hash, type) key, plus the displacement `old_off - old_off_i`; when the key
is not found, or when no item's old range contains `old_off`, the offset is
returned unchanged. -/
def old_to_new (locs : List ResLoc) : List RItem → Nat → Nat
  | [], off => off
  | it :: rest, off =>
    if it.has_old = true ∧ it.old_off ≤ off ∧ off < it.old_off + it.old_size then
      match locs.find? (fun rl => rl.hash == it.hash && rl.rtype == it.rtype) with
      | some rl => rl.offset + (off - it.old_off)
      | none => off
    else old_to_new locs rest off

/-- `remap_tl` (pcpacktool_gui.cpp:805-816): rewrite every type-list entry's
offset through `old_to_new`. -/
def remap_tl (locs : List ResLoc) (items : List RItem) (v : List TLLoc) :
    List TLLoc :=
  v.map fun t => ⟨t.name, t.tltype, t.pad, old_to_new locs items t.offset⟩

/-- The `(uint16_t)` casts of pcpacktool_gui.cpp:679 and 770-780: a
`mashable_vector_t::m_size` field holds the vector length reduced mod 2^16. -/
def toUInt16cast (n : Nat) : Nat := n % 65536

/-- The twelve directory element-count fields rewritten by the reimport:
`resource_locations.m_size` and the eleven type-list `m_size` fields. -/
structure DirCounts where
  resource_locations : Nat
  texture_locations : Nat
  mesh_file_locations : Nat
  mesh_locations : Nat
  morph_file_locations : Nat
  morph_locations : Nat
  material_file_locations : Nat
  material_locations : Nat
  anim_file_locations : Nat
  anim_locations : Nat
  scene_anim_locations : Nat
  skeleton_locations : Nat

/-- The count updates of pcpacktool_gui.cpp:679 and 770-780, from the
rebuilt resource array and the eleven type-list vectors (in order). -/
def update_dir_counts (resLocs : List ResLoc) (tls : List (List TLLoc)) :
    DirCounts :=
  ⟨toUInt16cast resLocs.length,
   toUInt16cast (tls.getD 0 []).length, toUInt16cast (tls.getD 1 []).length,
   toUInt16cast (tls.getD 2 []).length, toUInt16cast (tls.getD 3 []).length,
   toUInt16cast (tls.getD 4 []).length, toUInt16cast (tls.getD 5 []).length,
   toUInt16cast (tls.getD 6 []).length, toUInt16cast (tls.getD 7 []).length,
   toUInt16cast (tls.getD 8 []).length, toUInt16cast (tls.getD 9 []).length,
   toUInt16cast (tls.getD 10 []).length⟩

/-- `ea` (pcpacktool_gui.cpp:836): pad with 0xE3 to the next multiple of `a`. -/
def ea (out : List Nat) (a : Nat) : List Nat :=
  out ++ List.replicate (align_up out.length a - out.length) 0xE3

/-- `er`/`et`/`ei` (pcpacktool_gui.cpp:840-863): align 8, align 4, append
every record's bytes, align 4. -/
def emit_vec (out payload : List Nat) : List Nat :=
  ea (ea (ea out 8) 4 ++ payload) 4

/-- The recomputed payload base of pcpacktool_gui.cpp:873: the serialized
directory-and-vectors prefix length rounded up to a multiple of 16. -/
def reimport_new_base (outLen : Nat) : Nat := align_up outLen 16

/-- `sanitize_filename` (pcpacktool_gui.cpp:228-235) on raw bytes: a signed
`char` below 32 — i.e. a byte below 32 or at least 128 — or any of
`: * ? " < > | / \` becomes an underscore. -/
def sanitize_filename (s : List Nat) : List Nat :=
  s.map fun c =>
    if c < 32 ∨ 128 ≤ c ∨ c = 58 ∨ c = 42 ∨ c = 63 ∨ c = 34 ∨ c = 60 ∨
        c = 62 ∨ c = 124 ∨ c = 47 ∨ c = 92 then 95 else c

end GUI

namespace CLI

open PCPack

/-- The in-line sanitiser of `do_export` (pcpacktool.cpp:379-382): a signed
`char` below 32 — a byte below 32 or at least 128 — or any of
`: * ? " < > |` becomes an underscore; unlike the GUI sanitiser it leaves
`/` and `\` alone. -/
def do_export_sanitize (s : List Nat) : List Nat :=
  s.map fun c =>
    if c < 32 ∨ 128 ≤ c ∨ c = 58 ∨ c = 42 ∨ c = 63 ∨ c = 34 ∨ c = 60 ∨
        c = 62 ∨ c = 124 then 95 else c

/-- The export loop of `do_export` (pcpacktool.cpp:368-392) restricted to
the ranges it writes: each entry's absolute range is `(base + offset, size)`;
`ensure(end <= wholeFile.size())` throws on the first entry whose end is
past the file, aborting the remaining entries (the `Bool` records whether
the loop aborted; files already written stay written). -/
def export_entries (base fileLen : Nat) : List ResLoc →
    List (Nat × Nat) × Bool
  | [] => ([], false)
  | rl :: rest =>
    if base + rl.offset + rl.size ≤ fileLen then
      let r := export_entries base fileLen rest
      ((base + rl.offset, rl.size) :: r.1, r.2)
    else ([], true)

end CLI

namespace Dict

/-- Whitespace for `std::istringstream` extraction (`isspace`, C locale). -/
def isWS (c : Char) : Bool :=
  c = ' ' || c = Char.ofNat 9 || c = Char.ofNat 10 || c = Char.ofNat 11 ||
    c = Char.ofNat 12 || c = Char.ofNat 13

/-- First whitespace-delimited token of a line (`iss >> hx`). -/
def firstToken (l : List Char) : List Char :=
  (l.dropWhile isWS).takeWhile fun c => !isWS c

/-- The rest of the line after the first token. -/
def afterFirstToken (l : List Char) : List Char :=
  (l.dropWhile isWS).dropWhile fun c => !isWS c

/-- Second whitespace-delimited token of a line (`iss >> hx >> name`). -/
def secondToken (l : List Char) : List Char :=
  firstToken (afterFirstToken l)

/-- ASCII hex digit. -/
def isHexDigit (c : Char) : Bool :=
  ('0' ≤ c && c ≤ '9') || ('a' ≤ c && c ≤ 'f') || ('A' ≤ c && c ≤ 'F')

/-- Value of an ASCII hex digit. -/
def hexDigitVal (c : Char) : Nat :=
  if '0' ≤ c && c ≤ '9' then c.toNat - 48
  else if 'a' ≤ c && c ≤ 'f' then c.toNat - 87
  else c.toNat - 55

/-- The `0x`/`0X` prefix test of both loaders (pcpacktool.cpp:219,
pcpacktool_gui.cpp:206). -/
def has0xPrefix (tok : List Char) : Bool :=
  match tok with
  | c0 :: c1 :: _ => c0 = '0' && (c1 = 'x' || c1 = 'X')
  | _ => false

/-- `(uint32_t)std::stoul(tok, nullptr, 16)` on a token that starts with
`0x`/`0X`: the longest run of hex digits after the prefix, truncated to 32
bits (an empty run converts as "0"). -/
def stoul16 (tok : List Char) : Nat :=
  ((tok.drop 2).takeWhile isHexDigit).foldl
    (fun acc c => 16 * acc + hexDigitVal c) 0 % 4294967296

/-- One line of `load_hash_dictionary` (pcpacktool.cpp:212-223,
pcpacktool_gui.cpp:200-215): empty lines, lines with fewer than two
whitespace-separated tokens, and lines whose first token lacks the `0x`
prefix leave the map unchanged; otherwise `g_hashDict[hash] = name`
overwrites any earlier binding of the hash. -/
def processLine (d : Nat → Option (List Char)) (line : List Char) :
    Nat → Option (List Char) :=
  if line.isEmpty then d
  else
    let hx := firstToken line
    let name := secondToken line
    if hx.isEmpty || name.isEmpty then d
    else if has0xPrefix hx then
      fun h => if h = stoul16 hx then some name else d h
    else d

/-- `load_hash_dictionary` over the file's lines, starting from map `d`. -/
def load_hash_dictionary (lines : List (List Char))
    (d : Nat → Option (List Char)) : Nat → Option (List Char) :=
  lines.foldl processLine d

/-- A line that `processLine` ignores (the loader continues past it without
storing anything). -/
def lineIgnored (line : List Char) : Bool :=
  line.isEmpty || (firstToken line).isEmpty || (secondToken line).isEmpty ||
    !has0xPrefix (firstToken line)

/-- A line that stores a binding for hash `h`. -/
def storesTo (h : Nat) (line : List Char) : Bool :=
  !lineIgnored line && stoul16 (firstToken line) == h

end Dict

namespace GUI

/-- `toupper` on ASCII (pcpacktool_gui.cpp:182 `to_upper`). -/
def to_upper_char (c : Char) : Char :=
  if 'a' ≤ c ∧ c ≤ 'z' then Char.ofNat (c.toNat - 32) else c

/-- `tolower` on ASCII (pcpacktool_gui.cpp:186 `to_lower`). -/
def to_lower_char (c : Char) : Char :=
  if 'A' ≤ c ∧ c ≤ 'Z' then Char.ofNat (c.toNat + 32) else c

/-- Case-insensitive string equality: `to_upper(a) == to_upper(b)`. -/
def ciEq (a b : List Char) : Bool :=
  a.map to_upper_char == b.map to_upper_char

/-- `resource_type_ext` (pcpacktool_gui.cpp:147-158; the identical
`resource_key_type_ext` table sits at pcpacktool.cpp:196-201): the fixed
70-entry type-code → extension table. -/
def resource_type_ext : List (List Char) :=
  List.map String.toList
    [".NONE", ".PCANIM", ".PCSKEL", ".ALS", ".ENT", ".ENTEXT", ".DDS",
     ".DDSMP", ".IFL", ".DESC", ".ENS", ".SPL", ".AB", ".QP", ".TRIG",
     ".PCSX", ".INST", ".FDF", ".PANEL", ".TXT", ".ICN", ".PCMESH",
     ".PCMORPH", ".PCMAT", ".COLL", ".PCPACK", ".PCSANIM", ".MSN",
     ".MARKER", ".HH", ".WAV", ".WBK", ".M2V", "M2V", ".PFX", ".CSV",
     ".CLE", ".LIT", ".GRD", ".GLS", ".LOD", ".SIN", ".GV", ".SV",
     ".TOKENS", ".DSG", ".PATH", ".PTRL", ".LANG", ".SLF", ".VISEME",
     ".PCMESHDEF", ".PCMORPHDEF", ".PCMATDEF", ".MUT", ".ASG", ".BAI",
     ".CUT", ".INTERACT", ".CSV", ".CSV", "._ENTID_", "._ANIMID_",
     "._REGIONID_", "._AI_GENERIC_ID_", "._RADIOMSG_", "._GOAL_",
     "._IFC_ATTRIBUTE_", "._SIGNAL_", "._PACKGROUP_"]

/-- The scan of `type_from_ext_ci` (pcpacktool_gui.cpp:273-280): walk the
table from index `i`, returning the first index whose entry equals `u`
case-insensitively, or -1. -/
def tfec_loop (u : List Char) : Nat → List (List Char) → Int
  | _, [] => -1
  | i, te :: rest => if ciEq te u then Int.ofNat i else tfec_loop u (i + 1) rest

/-- `type_from_ext_ci`: first table index whose extension matches
case-insensitively, else -1. -/
def type_from_ext_ci (ext : List Char) : Int :=
  tfec_loop ext 0 resource_type_ext

/-- Index of the last '.' in a filename, if any. -/
def lastDotIdx (s : List Char) : Option Nat :=
  ((List.range s.length).filter fun i => s.getD i ' ' = '.').getLast?

/-- `std::filesystem::path::extension` on a plain filename: empty for "."
and "..", empty when there is no dot or the only dot leads a hidden-file
name, else the suffix from the last dot. -/
def path_extension (s : List Char) : List Char :=
  if s = ['.'] ∨ s = ['.', '.'] then []
  else
    match lastDotIdx s with
    | none => []
    | some 0 => []
    | some i => s.drop i

/-- `std::filesystem::path::stem`: the filename minus its extension. -/
def path_stem (s : List Char) : List Char :=
  s.take (s.length - (path_extension s).length)

/-- Result of decoding a folder file name back to (hash, type). -/
structure ParsedName where
  ok : Bool
  hash : Nat
  ptype : Nat

/-- `parse_folder_filename` (pcpacktool_gui.cpp:288-327): the extension must
decode through `type_from_ext_ci`; the stem is either a literal
`0xHHHHHHHH` hash or is looked up (exactly, then lower-cased) in the
reverse name map. -/
def parse_folder_filename (nameToHash : List Char → Option Nat)
    (p : List Char) : ParsedName :=
  if type_from_ext_ci (path_extension p) < 0 then ⟨false, 0, 0⟩
  else if Dict.has0xPrefix (path_stem p) then
    ⟨true, Dict.stoul16 (path_stem p),
      (type_from_ext_ci (path_extension p)).toNat⟩
  else
    match nameToHash (path_stem p) with
    | some v => ⟨true, v, (type_from_ext_ci (path_extension p)).toNat⟩
    | none =>
      match nameToHash ((path_stem p).map to_lower_char) with
      | some v => ⟨true, v, (type_from_ext_ci (path_extension p)).toNat⟩
      | none => ⟨false, 0, 0⟩

end GUI

namespace Inputs

open PCPack

/-- A minimal valid container: 44-byte header (directory at 44, payload
base 768), zeroed mash header, a directory declaring one parent word and
nothing else (directory `base` field = 768), the single parent word with
value 5, and 0xE3 fill up to the payload base 768 = file end. -/
def C2_input : List Nat :=
  List.replicate 24 0 ++ wle32 44 ++ wle32 768 ++ List.replicate 12 0 ++
  List.replicate 16 0 ++
  (List.replicate 4 0 ++ [1, 0] ++ List.replicate 118 0 ++ wle32 768 ++
    List.replicate 572 0) ++
  wle32 5 ++ List.replicate 4 0xE3

/-- The parsed form of `C2_input`, written out literally (the C2 theorem
checks it against `CLI.parse_pack`): directory at 44, base 768, one parent
word, no resources, all eleven type-lists empty. -/
def C2_parsed : CLI.ParsedPack :=
  ⟨C2_input, 44, 768,
   List.replicate 24 0 ++ wle32 44 ++ wle32 768 ++ List.replicate 12 0,
   List.replicate 16 0,
   List.replicate 4 0 ++ [1, 0] ++ List.replicate 118 0 ++ wle32 768 ++
     List.replicate 572 0,
   1, [], [[], [], [], [], [], [], [], [], [], [], []]⟩

/-- The overwrite-in-place rebuild of `C2_input` with no replacements. -/
def C2_out : List Nat :=
  (CLI.do_import C2_parsed false 1 (fun _ _ => none)).getD []

/-- A valid container with payload base 800 holding one resource
(hash 170, type 6, offset 4, size 8) and one texture type-list entry
(hash 187, category 1) whose offset 5 lies inside the resource's old
range [4, 12). -/
def C1_input : List Nat :=
  List.replicate 24 0 ++ wle32 44 ++ wle32 800 ++ List.replicate 12 0 ++
  List.replicate 16 0 ++
  (List.replicate 12 0 ++ [1, 0] ++ List.replicate 6 0 ++ [1, 0] ++
    List.replicate 102 0 ++ wle32 800 ++ List.replicate 572 0) ++
  (wle32 170 ++ wle32 6 ++ wle32 4 ++ wle32 8) ++
  (wle32 187 ++ [1, 0, 0, 0] ++ wle32 5) ++
  List.replicate 12 0xE3 ++
  [9, 9, 9, 9] ++ [1, 2, 3, 4, 5, 6, 7, 8]

/-- The parsed form of `C1_input`, written out literally (the C1
counterexample checks it against `CLI.parse_pack`): directory at 44, base
800, no parents, one resource (hash 170, type 6, offset 4, size 8), one
texture type-list entry (hash 187, category 1, offset 5). -/
def C1_parsed : CLI.ParsedPack :=
  ⟨C1_input, 44, 800,
   List.replicate 24 0 ++ wle32 44 ++ wle32 800 ++ List.replicate 12 0,
   List.replicate 16 0,
   List.replicate 12 0 ++ [1, 0] ++ List.replicate 6 0 ++ [1, 0] ++
     List.replicate 102 0 ++ wle32 800 ++ List.replicate 572 0,
   0, [⟨170, 6, 4, 8⟩],
   [[⟨187, 1, [0, 0, 0], 5⟩], [], [], [], [], [], [], [], [], [], []]⟩

/-- The CLI `--update-dir` rebuild of `C1_input` at payload alignment 16
with an empty input folder. -/
def C1_out : List Nat :=
  (CLI.do_import C1_parsed true 16 (fun _ _ => none)).getD []

/-- A 760-byte file that ends right after its resource directory, whose
directory declares 3 resource-location records: the GUI bounds checks pass,
but reading the records would run 48 bytes past the end of the file. -/
def C5_input : List Nat :=
  List.replicate 24 0 ++ wle32 44 ++ wle32 0 ++ List.replicate 12 0 ++
  List.replicate 16 0 ++
  (List.replicate 12 0 ++ [3, 0] ++ List.replicate 686 0)

end Inputs

namespace PCPack

theorem align_up_ge (x a : Nat) : x ≤ align_up x a := by
  unfold align_up
  split
  · exact Nat.le_refl x
  · split
    · exact Nat.le_refl x
    · omega

theorem align_up_mod (x a : Nat) (h : 0 < a) : align_up x a % a = 0 := by
  unfold align_up
  by_cases h1 : a ≤ 1
  · have ha : a = 1 := by omega
    simp [h1, ha, Nat.mod_one]
  · simp only [if_neg h1]
    by_cases h0 : x % a = 0
    · simp [h0]
    · simp only [if_neg h0]
      have hlt : x % a < a := Nat.mod_lt _ (by omega)
      have hdm := Nat.div_add_mod x a
      have hx : x + (a - x % a) = (x / a + 1) * a := by
        have hexp : (x / a + 1) * a = a * (x / a) + a := by ring
        omega
      rw [hx, Nat.mul_mod_left]

end PCPack

open PCPack

/-- Claim C7, counterexample: the CLI export sanitiser
(pcpacktool.cpp:379-382) does not replace '/' (47) or '\' (92), so a
resolved name containing them reaches the file system unchanged, contrary
to the claim that every character among : * ? " < > | / \ is replaced. -/
theorem C7_counterexample_cli_keeps_slashes :
    CLI.do_export_sanitize [97, 47, 92, 98] = [97, 47, 92, 98] ∧
    (47 : Nat) ∈ CLI.do_export_sanitize [97, 47, 92, 98] := by decide

/-- Claim C7, amended: the GUI sanitiser replaces every control character
and every character among : * ? " < > | / \ with an underscore, so none of
them survives in its output; the CLI do_export sanitiser replaces control
characters and : * ? " < > | but leaves '/' and '\' unchanged. -/
theorem C7_sanitize_amended :
    (∀ (s : List Nat) (c : Nat), c ∈ GUI.sanitize_filename s →
      ¬(c < 32 ∨ c = 58 ∨ c = 42 ∨ c = 63 ∨ c = 34 ∨ c = 60 ∨ c = 62 ∨
        c = 124 ∨ c = 47 ∨ c = 92)) ∧
    (∀ (s : List Nat) (c : Nat), c ∈ CLI.do_export_sanitize s →
      ¬(c < 32 ∨ c = 58 ∨ c = 42 ∨ c = 63 ∨ c = 34 ∨ c = 60 ∨ c = 62 ∨
        c = 124)) ∧
    (∀ s : List Nat, CLI.do_export_sanitize (47 :: 92 :: s) =
      47 :: 92 :: CLI.do_export_sanitize s) := by
  refine ⟨?_, ?_, ?_⟩
  · intro s c hc
    simp only [GUI.sanitize_filename, List.mem_map] at hc
    obtain ⟨x, _, rfl⟩ := hc
    split
    · omega
    · rename_i hcond
      omega
  · intro s c hc
    simp only [CLI.do_export_sanitize, List.mem_map] at hc
    obtain ⟨x, _, rfl⟩ := hc
    split
    · omega
    · rename_i hcond
      omega
  · intro s
    simp only [CLI.do_export_sanitize, List.map_cons]
    rw [if_neg (by decide), if_neg (by decide)]

/-- Claim C7, witness for the amended theorem at byte 40 = '('. -/
theorem C7_sanitize_amended_witness :
    (40 : Nat) ∈ GUI.sanitize_filename [40] ∧
    ¬((40 : Nat) < 32 ∨ (40 : Nat) = 58 ∨ (40 : Nat) = 42 ∨ (40 : Nat) = 63 ∨
      (40 : Nat) = 34 ∨ (40 : Nat) = 60 ∨ (40 : Nat) = 62 ∨ (40 : Nat) = 124 ∨
      (40 : Nat) = 47 ∨ (40 : Nat) = 92) :=
  ⟨by decide, C7_sanitize_amended.1 [40] 40 (by decide)⟩

theorem serializeResLoc_length (rl : ResLoc) : (serializeResLoc rl).length = 16 := by
  simp [serializeResLoc, wle32]

theorem serializeTL_length (t : TLLoc) (h : t.pad.length = 3) :
    (serializeTL t).length = 12 := by
  simp [serializeTL, wle32, h]

theorem flatten_serializeResLoc_length (l : List ResLoc) :
    ((l.map serializeResLoc).flatten).length = 16 * l.length := by
  induction l with
  | nil => simp
  | cons x xs ih =>
    simp only [List.map_cons, List.flatten_cons, List.length_append, ih,
      serializeResLoc_length, List.length_cons]
    ring

theorem flatten_serializeTL_length (l : List TLLoc)
    (h : ∀ t ∈ l, t.pad.length = 3) :
    ((l.map serializeTL).flatten).length = 12 * l.length := by
  induction l with
  | nil => simp
  | cons x xs ih =>
    have hx : x.pad.length = 3 := h x (List.mem_cons_self x xs)
    have hxs : ∀ t ∈ xs, t.pad.length = 3 := fun t ht => h t (List.mem_cons_of_mem x ht)
    simp only [List.map_cons, List.flatten_cons, List.length_append, ih hxs,
      serializeTL_length x hx, List.length_cons]
    ring

theorem emit_vec_infix (out p : List Nat) : List.IsInfix p (GUI.emit_vec out p) := by
  show List.IsInfix p (GUI.ea (GUI.ea (GUI.ea out 8) 4 ++ p) 4)
  unfold GUI.ea
  exact List.infix_append _ _ _

/-- Claim C9 (confirmed): the directory's per-vector element counts are
16-bit — after the folder-sync rebuild each of the twelve rewritten
m_size fields holds the in-memory vector's length reduced mod 2^16, the
serialized vector section still carries every element (all 16-byte
resource records and 12-byte type-list records appear contiguously in the
emitted bytes), and for lengths up to 65535 the stored count is exact. -/
theorem C9_dir_counts_16bit :
    (∀ (resLocs : List ResLoc) (tls : List (List TLLoc)),
      (GUI.update_dir_counts resLocs tls).resource_locations =
          resLocs.length % 2 ^ 16 ∧
      (GUI.update_dir_counts resLocs tls).texture_locations =
        (tls.getD 0 []).length % 2 ^ 16 ∧
      (GUI.update_dir_counts resLocs tls).mesh_file_locations =
        (tls.getD 1 []).length % 2 ^ 16 ∧
      (GUI.update_dir_counts resLocs tls).mesh_locations =
        (tls.getD 2 []).length % 2 ^ 16 ∧
      (GUI.update_dir_counts resLocs tls).morph_file_locations =
        (tls.getD 3 []).length % 2 ^ 16 ∧
      (GUI.update_dir_counts resLocs tls).morph_locations =
        (tls.getD 4 []).length % 2 ^ 16 ∧
      (GUI.update_dir_counts resLocs tls).material_file_locations =
        (tls.getD 5 []).length % 2 ^ 16 ∧
      (GUI.update_dir_counts resLocs tls).material_locations =
        (tls.getD 6 []).length % 2 ^ 16 ∧
      (GUI.update_dir_counts resLocs tls).anim_file_locations =
        (tls.getD 7 []).length % 2 ^ 16 ∧
      (GUI.update_dir_counts resLocs tls).anim_locations =
        (tls.getD 8 []).length % 2 ^ 16 ∧
      (GUI.update_dir_counts resLocs tls).scene_anim_locations =
        (tls.getD 9 []).length % 2 ^ 16 ∧
      (GUI.update_dir_counts resLocs tls).skeleton_locations =
        (tls.getD 10 []).length % 2 ^ 16) ∧
    (∀ resLocs : List ResLoc,
      ((resLocs.map serializeResLoc).flatten).length = 16 * resLocs.length) ∧
    (∀ l : List TLLoc, (∀ t ∈ l, t.pad.length = 3) →
      ((l.map serializeTL).flatten).length = 12 * l.length) ∧
    (∀ out p : List Nat, List.IsInfix p (GUI.emit_vec out p)) ∧
    (∀ n : Nat, n ≤ 65535 → GUI.toUInt16cast n = n) := by
  refine ⟨?_, flatten_serializeResLoc_length, flatten_serializeTL_length,
    emit_vec_infix, ?_⟩
  · intro resLocs tls
    refine ⟨?_, ?_, ?_, ?_, ?_, ?_, ?_, ?_, ?_, ?_, ?_, ?_⟩ <;>
      norm_num [GUI.update_dir_counts, GUI.toUInt16cast]
  · intro n hn
    exact Nat.mod_eq_of_lt (by omega)

/-- Claim C9, witness at a one-record type-list vector and count 70. -/
theorem C9_dir_counts_16bit_witness :
    ((([⟨1, 2, [0, 0, 0], 3⟩] : List TLLoc).map serializeTL).flatten).length =
      12 * ([⟨1, 2, [0, 0, 0], 3⟩] : List TLLoc).length ∧
    GUI.toUInt16cast 70 = 70 :=
  ⟨C9_dir_counts_16bit.2.2.1 [⟨1, 2, [0, 0, 0], 3⟩] (by decide),
   C9_dir_counts_16bit.2.2.2.2 70 (by decide)⟩

/-- Claim C3, counterexample: the CLI `do_export` throws
("Payload range out of file bounds") on the first out-of-range entry,
extracting nothing further — here the second entry is in bounds
(0 + 0 + 5 ≤ 10) yet the batch aborts with no entry extracted, contrary to
the claim that the bad entry is skipped and every other entry extracted. -/
theorem C3_counterexample_cli_aborts :
    CLI.export_entries 0 10 [⟨1, 2, 100, 5⟩, ⟨3, 4, 0, 5⟩] = ([], true) ∧
    (0 : Nat) + 0 + 5 ≤ 10 := by decide

/-- Claim C3, amended: the GUI `do_export_all` skips each entry whose end
`base + offset + size` exceeds the raw length and still extracts every
in-bounds entry (its output is exactly the in-bounds sublist, in order);
the CLI `do_export` only completes when every entry is in bounds, and
aborts at the first out-of-range entry, extracting just the preceding
prefix.  (Neither tool logs a per-entry warning for a skipped entry.) -/
theorem C3_export_oob_amended :
    (∀ (base rawLen : Nat) (locs : List ResLoc),
      GUI.do_export_all_ranges base rawLen locs =
        (locs.filter fun rl => decide (base + rl.offset + rl.size ≤ rawLen)).map
          fun rl => (base + rl.offset, rl.size)) ∧
    (∀ (base fileLen : Nat) (locs : List ResLoc),
      (∀ rl ∈ locs, base + rl.offset + rl.size ≤ fileLen) →
      CLI.export_entries base fileLen locs =
        (locs.map fun rl => (base + rl.offset, rl.size), false)) ∧
    (∀ (base fileLen : Nat) (l1 l2 : List ResLoc) (rl : ResLoc),
      (∀ x ∈ l1, base + x.offset + x.size ≤ fileLen) →
      fileLen < base + rl.offset + rl.size →
      CLI.export_entries base fileLen (l1 ++ rl :: l2) =
        (l1.map fun x => (base + x.offset, x.size), true)) := by
  refine ⟨?_, ?_, ?_⟩
  · intro base rawLen locs
    induction locs with
    | nil => rfl
    | cons x xs ih =>
      by_cases hx : base + x.offset + x.size ≤ rawLen
      · simp [GUI.do_export_all_ranges, hx, List.filter_cons, ih]
      · simp [GUI.do_export_all_ranges, hx, List.filter_cons, ih]
  · intro base fileLen locs h
    induction locs with
    | nil => rfl
    | cons x xs ih =>
      have hx : base + x.offset + x.size ≤ fileLen := h x (List.mem_cons_self x xs)
      have hxs := ih fun rl hrl => h rl (List.mem_cons_of_mem x hrl)
      simp [CLI.export_entries, hx, hxs]
  · intro base fileLen l1 l2 rl h1 hrl
    induction l1 with
    | nil =>
      simp only [List.nil_append, List.map_nil]
      simp [CLI.export_entries, Nat.not_le.mpr hrl,
        if_neg (by omega : ¬base + rl.offset + rl.size ≤ fileLen)]
    | cons x xs ih =>
      have hx : base + x.offset + x.size ≤ fileLen := h1 x (List.mem_cons_self x xs)
      have hxs := ih fun y hy => h1 y (List.mem_cons_of_mem x hy)
      simp [CLI.export_entries, hx, hxs]

/-- Claim C3, witness for the amended theorem on a concrete all-in-bounds
batch and a concrete prefix-abort instance. -/
theorem C3_export_oob_amended_witness :
    CLI.export_entries 0 20 [⟨1, 2, 0, 5⟩, ⟨3, 4, 8, 5⟩] =
      ([(0, 5), (8, 5)], false) ∧
    CLI.export_entries 0 10
        ([⟨1, 2, 0, 5⟩] ++ (⟨3, 4, 50, 5⟩ : ResLoc) :: [⟨7, 8, 1, 2⟩]) =
      ([(0, 5)], true) :=
  ⟨C3_export_oob_amended.2.1 0 20 [⟨1, 2, 0, 5⟩, ⟨3, 4, 8, 5⟩] (by decide),
   C3_export_oob_amended.2.2 0 10 [⟨1, 2, 0, 5⟩] [⟨7, 8, 1, 2⟩] ⟨3, 4, 50, 5⟩
     (by decide) (by decide)⟩

theorem cli_new_starts_spec (sizes : List Nat) :
    ∀ (cursor a : Nat), 0 < a →
      ∀ s ∈ CLI.cli_new_starts sizes cursor a, cursor ≤ s ∧ s % a = 0 := by
  induction sizes with
  | nil => intro cursor a _ s hs; cases hs
  | cons sz rest ih =>
    intro cursor a ha s hs
    simp only [CLI.cli_new_starts, List.mem_cons] at hs
    rcases hs with rfl | hs
    · exact ⟨align_up_ge cursor a, align_up_mod cursor a ha⟩
    · have h2 := ih (align_up cursor a + sz) a ha s hs
      exact ⟨le_trans (le_trans (align_up_ge cursor a) (Nat.le_add_right _ _)) h2.1,
        h2.2⟩

theorem gui_nres_go_mod (locs : List ResLoc) :
    ∀ (repl : Nat → Option Nat) (a i cursor : Nat), 0 < a →
      ∀ p ∈ GUI.gui_nres_go repl a locs i cursor, p.1 % a = 0 := by
  induction locs with
  | nil => intro repl a i cursor _ p hp; cases hp
  | cons rl rest ih =>
    intro repl a i cursor ha p hp
    simp only [GUI.gui_nres_go, List.mem_cons] at hp
    rcases hp with rfl | hp
    · exact align_up_mod cursor a ha
    · exact ih repl a (i + 1) _ ha p hp

theorem reimport_offsets_go_mod (l : List GUI.RItem) :
    ∀ (a cursor : Nat), 0 < a →
      ∀ o ∈ GUI.reimport_offsets_go a l cursor, o % a = 0 := by
  induction l with
  | nil => intro a cursor _ o ho; cases ho
  | cons x rest ih =>
    intro a cursor ha o ho
    simp only [GUI.reimport_offsets_go, List.mem_cons] at ho
    rcases ho with rfl | ho
    · exact align_up_mod cursor a ha
    · exact ih a _ ha o ho

/-- Claim C4, counterexample: GUI `do_import` aligns only the *relative*
offsets and copies the pack header (so the payload base) unchanged: for a
pack with payload base 8 and alignment 16 the single resource is emitted at
relative offset 0, and (base + offset) mod A = 8 mod 16 ≠ 0, contrary to
the claimed absolute alignment invariant. -/
theorem C4_counterexample_gui_base_misaligned :
    GUI.gui_nres [⟨1, 2, 4, 8⟩] (fun _ => none) 16 = [(0, 8)] ∧
    (8 + 0) % 16 ≠ 0 := by decide

/-- Claim C4, amended: the CLI `--update-dir` rebuild aligns the *absolute*
position, so every emitted resource satisfies (base + offset) mod A = 0;
the GUI rebuilds align only the relative offset (offset mod A = 0), so the
absolute invariant holds there exactly when the payload base is itself a
multiple of A — in `do_reimport_from_folder` the recomputed base is always
16-aligned, so the absolute invariant holds whenever A divides 16. -/
theorem C4_alignment_amended :
    (∀ (P : CLI.ParsedPack) (a : Nat) (folder : Nat → Nat → Option (List Nat)),
      0 < a → ∀ rl ∈ CLI.workingResLocs P true a folder,
        (P.base + rl.offset) % a = 0) ∧
    (∀ (locs : List ResLoc) (repl : Nat → Option Nat) (a : Nat), 0 < a →
      ∀ p ∈ GUI.gui_nres locs repl a, p.1 % a = 0) ∧
    (∀ (l : List GUI.RItem) (a : Nat), 0 < a →
      ∀ o ∈ GUI.reimport_offsets l a, o % a = 0) ∧
    (∀ outLen : Nat, GUI.reimport_new_base outLen % 16 = 0) := by
  refine ⟨?_, ?_, ?_, ?_⟩
  · intro P a folder ha rl hrl
    simp only [CLI.workingResLocs, if_true, List.mem_map] at hrl
    obtain ⟨p, hp, rfl⟩ := hrl
    have hmem := List.of_mem_zip hp
    have hst := List.of_mem_zip hmem.2
    have hspec := cli_new_starts_spec (CLI.cli_new_sizes P.resLocs folder)
      P.base a ha p.2.1 hst.1
    have hb : P.base + (p.2.1 - P.base) = p.2.1 := by omega
    simpa [hb] using hspec.2
  · intro locs repl a ha p hp
    exact gui_nres_go_mod locs repl a 0 0 ha p hp
  · intro l a ha o ho
    exact reimport_offsets_go_mod l a 0 ha o ho
  · intro outLen
    exact align_up_mod outLen 16 (by decide)

/-- Claim C4, witness for the amended theorem on a concrete one-resource
pack rebuilt by the CLI at alignment 16 from base 8. -/
theorem C4_alignment_amended_witness :
    (8 + ((CLI.workingResLocs ⟨[], 0, 8, [], [], [], 0, [⟨1, 2, 4, 8⟩], []⟩
      true 16 (fun _ _ => none)).getD 0 ⟨0, 0, 1, 0⟩).offset) % 16 = 0 :=
  C4_alignment_amended.1 ⟨[], 0, 8, [], [], [], 0, [⟨1, 2, 4, 8⟩], []⟩ 16
    (fun _ _ => none) (by decide)
    ((CLI.workingResLocs ⟨[], 0, 8, [], [], [], 0, [⟨1, 2, 4, 8⟩], []⟩
      true 16 (fun _ _ => none)).getD 0 ⟨0, 0, 1, 0⟩) (by decide)

theorem utl_of_mem (pairs : List (ResLoc × Nat)) (off : Nat)
    (h : ∃ p ∈ pairs, p.1.offset ≤ off ∧ off < p.1.offset + p.1.size) :
    ∃ p ∈ pairs, (p.1.offset ≤ off ∧ off < p.1.offset + p.1.size) ∧
      GUI.utl pairs off = p.2 + (off - p.1.offset) := by
  induction pairs with
  | nil =>
    obtain ⟨p, hp, _⟩ := h
    cases hp
  | cons q rest ih =>
    obtain ⟨rl, noff⟩ := q
    by_cases hq : rl.offset ≤ off ∧ off < rl.offset + rl.size
    · exact ⟨(rl, noff), List.mem_cons_self _ _, hq, by simp [GUI.utl, hq]⟩
    · have hrest : ∃ p ∈ rest, p.1.offset ≤ off ∧ off < p.1.offset + p.1.size := by
        obtain ⟨p, hp, hcond⟩ := h
        rcases List.mem_cons.mp hp with rfl | hp2
        · exact absurd hcond hq
        · exact ⟨p, hp2, hcond⟩
      obtain ⟨p, hp, hcond, heq⟩ := ih hrest
      exact ⟨p, List.mem_cons_of_mem _ hp, hcond, by simp [GUI.utl, hq, heq]⟩

theorem utl_of_none (pairs : List (ResLoc × Nat)) (off : Nat)
    (h : ∀ p ∈ pairs, ¬(p.1.offset ≤ off ∧ off < p.1.offset + p.1.size)) :
    GUI.utl pairs off = off := by
  induction pairs with
  | nil => rfl
  | cons q rest ih =>
    obtain ⟨rl, noff⟩ := q
    have hq : ¬(rl.offset ≤ off ∧ off < rl.offset + rl.size) :=
      h (rl, noff) (List.mem_cons_self _ _)
    have := ih fun p hp => h p (List.mem_cons_of_mem _ hp)
    simp [GUI.utl, hq, this]

theorem old_to_new_of_none (locs : List ResLoc) (items : List GUI.RItem)
    (off : Nat)
    (h : ∀ it ∈ items, ¬(it.has_old = true ∧ it.old_off ≤ off ∧
      off < it.old_off + it.old_size)) :
    GUI.old_to_new locs items off = off := by
  induction items with
  | nil => rfl
  | cons it rest ih =>
    have hit := h it (List.mem_cons_self _ _)
    have := ih fun x hx => h x (List.mem_cons_of_mem _ hx)
    simp [GUI.old_to_new, hit, this]

theorem old_to_new_of_mem (locs : List ResLoc) (items : List GUI.RItem)
    (off : Nat)
    (hkeys : ∀ it ∈ items, it.has_old = true →
      ∃ rl ∈ locs, rl.hash = it.hash ∧ rl.rtype = it.rtype)
    (h : ∃ it ∈ items, it.has_old = true ∧ it.old_off ≤ off ∧
      off < it.old_off + it.old_size) :
    ∃ it ∈ items,
      (it.has_old = true ∧ it.old_off ≤ off ∧ off < it.old_off + it.old_size) ∧
      ∃ rl ∈ locs, rl.hash = it.hash ∧ rl.rtype = it.rtype ∧
        GUI.old_to_new locs items off = rl.offset + (off - it.old_off) := by
  induction items with
  | nil =>
    obtain ⟨p, hp, _⟩ := h
    cases hp
  | cons it rest ih =>
    by_cases hc : it.has_old = true ∧ it.old_off ≤ off ∧
        off < it.old_off + it.old_size
    · have hex : ∃ rl ∈ locs, rl.hash = it.hash ∧ rl.rtype = it.rtype :=
        hkeys it (List.mem_cons_self _ _) hc.1
      have hfind : (locs.find? fun rl =>
          rl.hash == it.hash && rl.rtype == it.rtype).isSome = true := by
        rw [List.find?_isSome]
        obtain ⟨rl, hrl, h1, h2⟩ := hex
        exact ⟨rl, hrl, by simp [h1, h2]⟩
      obtain ⟨rl, hrl⟩ := Option.isSome_iff_exists.mp hfind
      have hrlmem : rl ∈ locs := List.mem_of_find?_eq_some hrl
      have hpred := List.find?_some hrl
      simp only [Bool.and_eq_true, beq_iff_eq] at hpred
      refine ⟨it, List.mem_cons_self _ _, hc, rl, hrlmem, hpred.1, hpred.2, ?_⟩
      simp [GUI.old_to_new, hc, hrl]
    · have hrest : ∃ x ∈ rest, x.has_old = true ∧ x.old_off ≤ off ∧
          off < x.old_off + x.old_size := by
        obtain ⟨x, hx, hcx⟩ := h
        rcases List.mem_cons.mp hx with rfl | hx2
        · exact absurd hcx hc
        · exact ⟨x, hx2, hcx⟩
      obtain ⟨x, hx, hcx, rl, hrl, h1, h2, heq⟩ :=
        ih (fun y hy hold => hkeys y (List.mem_cons_of_mem _ hy) hold) hrest
      refine ⟨x, List.mem_cons_of_mem _ hx, hcx, rl, hrl, h1, h2, ?_⟩
      simp [GUI.old_to_new, hc, heq]

theorem reimport_offsets_go_length (l : List GUI.RItem) :
    ∀ (a cursor : Nat), (GUI.reimport_offsets_go a l cursor).length = l.length := by
  induction l with
  | nil => intro a cursor; rfl
  | cons x rest ih =>
    intro a cursor
    simp [GUI.reimport_offsets_go, ih]

theorem reimport_res_locs_keys (l : List GUI.RItem) (a : Nat) :
    ∀ it ∈ l, ∃ rl ∈ GUI.reimport_res_locs l a,
      rl.hash = it.hash ∧ rl.rtype = it.rtype := by
  intro it hit
  obtain ⟨i, hi, hgi⟩ := List.mem_iff_getElem.mp hit
  have hlen : (GUI.reimport_offsets l a).length = l.length :=
    reimport_offsets_go_length l a 0
  have hzlen : (l.zip (GUI.reimport_offsets l a)).length = l.length := by
    simp [List.length_zip, hlen]
  have hi2 : i < (GUI.reimport_res_locs l a).length := by
    simp [GUI.reimport_res_locs, hzlen]
    omega
  refine ⟨(GUI.reimport_res_locs l a)[i], List.getElem_mem hi2, ?_⟩
  have hi3 : i < (l.zip (GUI.reimport_offsets l a)).length := by omega
  simp [GUI.reimport_res_locs, List.getElem_map, List.getElem_zip, hgi]

/-- Claim C1, counterexample: the CLI rebuild with --update-dir moves the
only resource from old offset 4 to new offset 0 (its offset field sits at
output bytes 768..771), yet emits the texture type-list entry with its old
offset 5 unchanged (bytes 784..787) instead of the claimed
new_offset + (5 - 4) = 1: pcpacktool.cpp:513-529 serialises the parsed
type-list vectors verbatim. -/
theorem C1_counterexample_cli_tl_not_relocated :
    CLI.parse_pack Inputs.C1_input = some Inputs.C1_parsed ∧
    Inputs.C1_parsed.base = 800 ∧
    Inputs.C1_parsed.resLocs = [⟨170, 6, 4, 8⟩] ∧
    Inputs.C1_parsed.tls.getD 0 [] = [⟨187, 1, [0, 0, 0], 5⟩] ∧
    (CLI.do_import Inputs.C1_parsed true 16 (fun _ _ => none)).isSome = true ∧
    le32 Inputs.C1_out 768 = 0 ∧
    le32 Inputs.C1_out 784 = 5 ∧
    (5 : Nat) ≠ 0 + (5 - 4) := by decide

/-- Claim C1, amended: in the GUI rebuilds the relocation invariant holds —
in do_import, a type-list entry whose old offset lies in some old resource
range is rewritten (by utl, applied to every emitted entry by uv) to that
resource's new offset plus the internal displacement, and an entry in no
old range is emitted unchanged; in do_reimport_from_folder the same holds
through old_to_new, the target being the rebuilt resource entry carrying
the matched item's (hash, type) key.  The CLI do_import with --update-dir
is excluded: it emits every type-list entry unchanged. -/
theorem C1_relocation_amended :
    (∀ (pairs : List (ResLoc × Nat)) (off : Nat),
      (∃ p ∈ pairs, p.1.offset ≤ off ∧ off < p.1.offset + p.1.size) →
      ∃ p ∈ pairs, (p.1.offset ≤ off ∧ off < p.1.offset + p.1.size) ∧
        GUI.utl pairs off = p.2 + (off - p.1.offset)) ∧
    (∀ (pairs : List (ResLoc × Nat)) (off : Nat),
      (∀ p ∈ pairs, ¬(p.1.offset ≤ off ∧ off < p.1.offset + p.1.size)) →
      GUI.utl pairs off = off) ∧
    (∀ (pairs : List (ResLoc × Nat)) (v : List TLLoc),
      GUI.uv pairs v =
        v.map fun t => ⟨t.name, t.tltype, t.pad, GUI.utl pairs t.offset⟩) ∧
    (∀ (items : List GUI.RItem) (a off : Nat),
      (∃ it ∈ GUI.sortItems items, it.has_old = true ∧ it.old_off ≤ off ∧
        off < it.old_off + it.old_size) →
      ∃ it ∈ GUI.sortItems items,
        (it.has_old = true ∧ it.old_off ≤ off ∧ off < it.old_off + it.old_size) ∧
        ∃ rl ∈ GUI.reimport_res_locs (GUI.sortItems items) a,
          rl.hash = it.hash ∧ rl.rtype = it.rtype ∧
          GUI.old_to_new (GUI.reimport_res_locs (GUI.sortItems items) a)
            (GUI.sortItems items) off = rl.offset + (off - it.old_off)) ∧
    (∀ (locs : List ResLoc) (items : List GUI.RItem) (off : Nat),
      (∀ it ∈ items, ¬(it.has_old = true ∧ it.old_off ≤ off ∧
        off < it.old_off + it.old_size)) →
      GUI.old_to_new locs items off = off) := by
  refine ⟨utl_of_mem, utl_of_none, fun pairs v => rfl, ?_, old_to_new_of_none⟩
  intro items a off h
  exact old_to_new_of_mem _ _ off
    (fun it hit _ => reimport_res_locs_keys (GUI.sortItems items) a it hit) h

/-- Claim C1, witness for the amended theorem: a single old resource
[4, 12) with new offset 0, and type-list offset 5 relocated to 0 + 1 in
both GUI paths. -/
theorem C1_relocation_amended_witness :
    (∃ p ∈ [((⟨170, 6, 4, 8⟩ : ResLoc), 32)],
      (p.1.offset ≤ 5 ∧ 5 < p.1.offset + p.1.size) ∧
      GUI.utl [((⟨170, 6, 4, 8⟩ : ResLoc), 32)] 5 = p.2 + (5 - p.1.offset)) ∧
    (∃ it ∈ GUI.sortItems [⟨170, 6, 8, true, 4, 8⟩],
      (it.has_old = true ∧ it.old_off ≤ 5 ∧ 5 < it.old_off + it.old_size) ∧
      ∃ rl ∈ GUI.reimport_res_locs (GUI.sortItems [⟨170, 6, 8, true, 4, 8⟩]) 16,
        rl.hash = it.hash ∧ rl.rtype = it.rtype ∧
        GUI.old_to_new
          (GUI.reimport_res_locs (GUI.sortItems [⟨170, 6, 8, true, 4, 8⟩]) 16)
          (GUI.sortItems [⟨170, 6, 8, true, 4, 8⟩]) 5 =
          rl.offset + (5 - it.old_off)) :=
  ⟨C1_relocation_amended.1 [((⟨170, 6, 4, 8⟩ : ResLoc), 32)] 5
    ⟨(⟨170, 6, 4, 8⟩, 32), by decide, by decide⟩,
   C1_relocation_amended.2.2.2.1 [⟨170, 6, 8, true, 4, 8⟩] 16 5
    ⟨⟨170, 6, 8, true, 4, 8⟩, by decide, by decide⟩⟩

theorem c2_roundtrip_facts :
    CLI.parse_pack Inputs.C2_input = some Inputs.C2_parsed ∧
    Inputs.C2_parsed.parentsCount = 1 ∧
    Inputs.C2_parsed.base = 768 ∧
    Inputs.C2_parsed.resLocs = [] ∧
    (CLI.do_import Inputs.C2_parsed false 1 (fun _ _ => none)).isSome = true ∧
    Inputs.C2_out.length = Inputs.C2_input.length ∧
    Inputs.C2_out.getD 760 9 = 0 ∧
    Inputs.C2_input.getD 760 9 = 5 := by decide

/-- Claim C2 (code bug): parse-then-rebuild with zero replacements in the
overwrite-in-place mode is *not* byte-identical — the import path re-emits
the parents vector as a single zero word whatever its parsed content
(pcpacktool.cpp:447-450), so the valid container whose single parent word
is 5 round-trips to a file of the same length that differs at byte 760
(0 instead of 5). -/
theorem C2_roundtrip_parents_divergence :
    CLI.parse_pack Inputs.C2_input = some Inputs.C2_parsed ∧
    Inputs.C2_parsed.parentsCount = 1 ∧
    Inputs.C2_parsed.base = 768 ∧
    Inputs.C2_parsed.resLocs = [] ∧
    (CLI.do_import Inputs.C2_parsed false 1 (fun _ _ => none)).isSome = true ∧
    Inputs.C2_out.length = Inputs.C2_input.length ∧
    Inputs.C2_out.getD 760 9 = 0 ∧
    Inputs.C2_input.getD 760 9 = 5 ∧
    Inputs.C2_out ≠ Inputs.C2_input := by
  obtain ⟨h1, h2, h3, h4, h5, h6, h7, h8⟩ := c2_roundtrip_facts
  refine ⟨h1, h2, h3, h4, h5, h6, h7, h8, ?_⟩
  intro h
  have h760 : Inputs.C2_out.getD 760 9 = Inputs.C2_input.getD 760 9 := by rw [h]
  rw [h7, h8] at h760
  exact absurd h760 (by decide)

/-- Claim C5 (code bug): on a 760-byte file ending right after a directory
that declares 3 resource-location records, the GUI parse passes both of its
explicit bounds checks yet its unchecked vector memcpy runs 48 bytes past
the end of the buffer (an out-of-bounds read, undefined behavior) instead
of failing with a format error; the CLI parse_pack, whose reads go through
read_exact, does fail on the same input as the claim describes. -/
theorem C5_gui_unchecked_vector_read :
    GUI.parse_checks Inputs.C5_input = true ∧
    GUI.parse_pcpack_oob Inputs.C5_input = true ∧
    (CLI.parse_pack Inputs.C5_input).isSome = false := by decide

theorem processLine_ignored (d : Nat → Option (List Char)) (line : List Char)
    (h : Dict.lineIgnored line = true) : Dict.processLine d line = d := by
  unfold Dict.processLine
  by_cases h1 : line.isEmpty = true
  · simp [h1]
  · by_cases h2 : (Dict.firstToken line).isEmpty = true
    · simp [h1, h2]
    · by_cases h3 : (Dict.secondToken line).isEmpty = true
      · simp [h1, h2, h3]
      · have h4 : Dict.has0xPrefix (Dict.firstToken line) = false := by
          simp only [Dict.lineIgnored, Bool.or_eq_true, Bool.not_eq_true'] at h
          rcases h with ((h | h) | h) | h
          · exact absurd h h1
          · exact absurd h h2
          · exact absurd h h3
          · exact h
        simp [h1, h2, h3, h4]

theorem processLine_lineOk (h0 : Nat) (d : Nat → Option (List Char))
    (line : List Char) (hig : Dict.lineIgnored line = false) :
    Dict.processLine d line h0 =
      if h0 = Dict.stoul16 (Dict.firstToken line)
      then some (Dict.secondToken line) else d h0 := by
  simp only [Dict.lineIgnored, Bool.or_eq_false_iff, Bool.not_eq_false'] at hig
  obtain ⟨⟨⟨hne1, hne2⟩, hne3⟩, hpr⟩ := hig
  unfold Dict.processLine
  simp [hne1, hne2, hne3, hpr]

theorem processLine_not_stores (h0 : Nat) (d : Nat → Option (List Char))
    (line : List Char) (h : Dict.storesTo h0 line = false) :
    Dict.processLine d line h0 = d h0 := by
  by_cases hig : Dict.lineIgnored line = true
  · rw [processLine_ignored d line hig]
  · have hig2 : Dict.lineIgnored line = false := by simpa using hig
    have hne : ¬(h0 = Dict.stoul16 (Dict.firstToken line)) := by
      intro hctr
      simp [Dict.storesTo, hig2, hctr] at h
    rw [processLine_lineOk h0 d line hig2, if_neg hne]

theorem processLine_stores (h0 : Nat) (d : Nat → Option (List Char))
    (line : List Char) (h : Dict.storesTo h0 line = true) :
    Dict.processLine d line h0 = some (Dict.secondToken line) := by
  have hig2 : Dict.lineIgnored line = false := by
    cases hg : Dict.lineIgnored line
    · rfl
    · simp [Dict.storesTo, hg] at h
  have heq : Dict.stoul16 (Dict.firstToken line) = h0 := by
    simp [Dict.storesTo, hig2] at h
    exact h
  rw [processLine_lineOk h0 d line hig2, if_pos heq.symm]

theorem load_no_store (h0 : Nat) :
    ∀ (lines : List (List Char)) (d : Nat → Option (List Char)),
      (∀ l ∈ lines, Dict.storesTo h0 l = false) →
      Dict.load_hash_dictionary lines d h0 = d h0 := by
  intro lines
  induction lines with
  | nil => intro d _; rfl
  | cons x xs ih =>
    intro d h
    have hx := h x (List.mem_cons_self _ _)
    have hxs := ih (Dict.processLine d x) fun l hl => h l (List.mem_cons_of_mem _ hl)
    calc Dict.load_hash_dictionary (x :: xs) d h0
        = Dict.load_hash_dictionary xs (Dict.processLine d x) h0 := rfl
      _ = Dict.processLine d x h0 := hxs
      _ = d h0 := processLine_not_stores h0 d x hx

/-- Claim C8 (confirmed): loading is insensitive to ignored lines (empty
lines, lines with fewer than two whitespace-separated tokens, lines whose
first token lacks the 0x prefix — the loader continues past them storing
nothing); a hash not stored by any line keeps its previous binding; and
when a line stores hash h with no later line storing h, the loaded map
returns that line's name — so among several lines with the same hash the
last one wins. -/
theorem C8_dictionary_loading :
    (∀ (lines : List (List Char)) (d : Nat → Option (List Char)),
      Dict.load_hash_dictionary lines d =
        Dict.load_hash_dictionary (lines.filter fun l => !Dict.lineIgnored l) d) ∧
    (∀ (h0 : Nat) (lines : List (List Char)) (d : Nat → Option (List Char)),
      (∀ l ∈ lines, Dict.storesTo h0 l = false) →
      Dict.load_hash_dictionary lines d h0 = d h0) ∧
    (∀ (h0 : Nat) (l1 l2 : List (List Char)) (line : List Char)
      (d : Nat → Option (List Char)),
      Dict.storesTo h0 line = true →
      (∀ l ∈ l2, Dict.storesTo h0 l = false) →
      Dict.load_hash_dictionary (l1 ++ line :: l2) d h0 =
        some (Dict.secondToken line)) := by
  refine ⟨?_, load_no_store, ?_⟩
  · intro lines
    induction lines with
    | nil => intro d; rfl
    | cons x xs ih =>
      intro d
      by_cases hx : Dict.lineIgnored x = true
      · calc Dict.load_hash_dictionary (x :: xs) d
            = Dict.load_hash_dictionary xs (Dict.processLine d x) := rfl
          _ = Dict.load_hash_dictionary xs d := by rw [processLine_ignored d x hx]
          _ = Dict.load_hash_dictionary
                (xs.filter fun l => !Dict.lineIgnored l) d := ih d
          _ = Dict.load_hash_dictionary
                ((x :: xs).filter fun l => !Dict.lineIgnored l) d := by
                simp [List.filter_cons, hx]
      · calc Dict.load_hash_dictionary (x :: xs) d
            = Dict.load_hash_dictionary xs (Dict.processLine d x) := rfl
          _ = Dict.load_hash_dictionary
                (xs.filter fun l => !Dict.lineIgnored l)
                (Dict.processLine d x) := ih _
          _ = Dict.load_hash_dictionary
                ((x :: xs).filter fun l => !Dict.lineIgnored l) d := by
                simp [List.filter_cons, hx, Dict.load_hash_dictionary]
  · intro h0 l1
    induction l1 with
    | nil =>
      intro l2 line d hs hns
      calc Dict.load_hash_dictionary ([] ++ line :: l2) d h0
          = Dict.load_hash_dictionary l2 (Dict.processLine d line) h0 := rfl
        _ = Dict.processLine d line h0 := load_no_store h0 l2 _ hns
        _ = some (Dict.secondToken line) := processLine_stores h0 d line hs
    | cons x xs ih =>
      intro l2 line d hs hns
      exact ih l2 line (Dict.processLine d x) hs hns

/-- Claim C8, witness: a malformed line between two bindings of hash 0x2A;
the loaded map returns the later name. -/
theorem C8_dictionary_loading_witness :
    Dict.load_hash_dictionary
      [("0x0000002A old_name").toList, ("garbage line").toList,
       ("0x0000002A new_name").toList]
      (fun _ => none) 42 = some (("new_name").toList) :=
  C8_dictionary_loading.2.2 42
    [("0x0000002A old_name").toList, ("garbage line").toList] [] 
    (("0x0000002A new_name").toList) (fun _ => none) (by decide) (by decide)

theorem tfec_loop_cases (u : List Char) :
    ∀ (table : List (List Char)) (i : Nat),
      (GUI.tfec_loop u i table = -1 ∧
        ∀ k, k < table.length → GUI.ciEq (table.getD k []) u = false) ∨
      ∃ j, j < table.length ∧ GUI.tfec_loop u i table = Int.ofNat (i + j) ∧
        GUI.ciEq (table.getD j []) u = true ∧
        ∀ k, k < j → GUI.ciEq (table.getD k []) u = false := by
  intro table
  induction table with
  | nil =>
    intro i
    left
    exact ⟨rfl, fun k hk => absurd hk (by simp)⟩
  | cons te rest ih =>
    intro i
    by_cases hte : GUI.ciEq te u = true
    · right
      refine ⟨0, by simp, ?_, by simpa using hte, fun k hk => absurd hk (by omega)⟩
      simp [GUI.tfec_loop, hte]
    · have hte2 : GUI.ciEq te u = false := by simpa using hte
      rcases ih (i + 1) with ⟨heq, hall⟩ | ⟨j, hj, heq, hmatch, hbelow⟩
      · left
        refine ⟨by simp [GUI.tfec_loop, hte2, heq], ?_⟩
        intro k hk
        cases k with
        | zero => simpa using hte2
        | succ k2 => exact hall k2 (by simpa using hk)
      · right
        refine ⟨j + 1, by simpa using hj, ?_, by simpa using hmatch, ?_⟩
        · have harith : i + (j + 1) = i + 1 + j := by omega
          rw [harith]
          simp [GUI.tfec_loop, hte2, heq]
        · intro k hk
          cases k with
          | zero => simpa using hte2
          | succ k2 => exact hbelow k2 (by omega)

theorem path_extension_shape (s : List Char) :
    GUI.path_extension s = [] ∨
    ∃ rest, GUI.path_extension s = '.' :: rest := by
  unfold GUI.path_extension
  split
  · left; rfl
  · rcases hidx : GUI.lastDotIdx s with _ | i
    · left; rfl
    · cases i with
      | zero => left; rfl
      | succ i2 =>
        right
        simp only [GUI.lastDotIdx] at hidx
        have hmem := List.mem_of_mem_getLast? hidx
        rw [List.mem_filter, List.mem_range] at hmem
        obtain ⟨hlt, hdot⟩ := hmem
        have hdot2 : s.getD (i2 + 1) ' ' = '.' := by simpa using hdot
        refine ⟨s.drop (i2 + 2), ?_⟩
        show s.drop (i2 + 1) = '.' :: s.drop (i2 + 2)
        rw [List.drop_eq_getElem_cons hlt]
        rw [List.getD_eq_getElem s ' ' hlt] at hdot2
        rw [hdot2]

theorem parse_folder_filename_ok (ntH : List Char → Option Nat) (p : List Char)
    (h : (GUI.parse_folder_filename ntH p).ok = true) :
    ¬ GUI.type_from_ext_ci (GUI.path_extension p) < 0 ∧
    (GUI.parse_folder_filename ntH p).ptype =
      (GUI.type_from_ext_ci (GUI.path_extension p)).toNat := by
  unfold GUI.parse_folder_filename at h ⊢
  split at h
  · cases h
  · rename_i hneg
    refine ⟨hneg, ?_⟩
    rw [if_neg hneg]
    split
    · rfl
    · rename_i hpr
      rw [if_neg hpr] at h
      split
      · rfl
      · rename_i v heq1
        rw [heq1] at h
        split
        · rfl
        · rename_i v2 heq2
          rw [heq2] at h
          cases h

theorem ciEq_refl (s : List Char) : GUI.ciEq s s = true := by
  simp [GUI.ciEq]

theorem resource_type_ext_length : GUI.resource_type_ext.length = 70 := by decide

/-- Claim C10 (confirmed): type_from_ext_ci returns the smallest table index
matching the extension case-insensitively (and -1 when none matches); the
round trip type_from_ext_ci(type_to_extension(t)) = t holds exactly for the
type codes whose extension occurs (case-insensitively) at no smaller index
— in particular types 59 and 60 (both ".CSV") decode to 35 — and type 33
("M2V", the only entry without a leading dot) is never produced by
parse_folder_filename, since a file name's extension is empty or starts
with '.'. -/
theorem C10_type_from_ext_roundtrip :
    (∀ e : List Char,
      (∀ k, k < 70 → GUI.ciEq (GUI.resource_type_ext.getD k []) e = false) →
      GUI.type_from_ext_ci e = -1) ∧
    (∀ (e : List Char) (j : Nat), j < 70 →
      GUI.ciEq (GUI.resource_type_ext.getD j []) e = true →
      (∀ k, k < j → GUI.ciEq (GUI.resource_type_ext.getD k []) e = false) →
      GUI.type_from_ext_ci e = Int.ofNat j) ∧
    (∀ t : Nat, t < 70 →
      (GUI.type_from_ext_ci (GUI.resource_type_ext.getD t []) = Int.ofNat t ↔
        ∀ k, k < t → GUI.ciEq (GUI.resource_type_ext.getD k [])
          (GUI.resource_type_ext.getD t []) = false)) ∧
    (GUI.resource_type_ext.getD 59 [] = (".CSV").toList ∧
      GUI.resource_type_ext.getD 60 [] = (".CSV").toList ∧
      GUI.type_from_ext_ci ((".CSV").toList) = Int.ofNat 35 ∧
      GUI.resource_type_ext.getD 33 [] = ("M2V").toList) ∧
    (∀ (ntH : List Char → Option Nat) (p : List Char),
      (GUI.parse_folder_filename ntH p).ok = true →
      (GUI.parse_folder_filename ntH p).ptype ≠ 33) := by
  have hcases := fun u => tfec_loop_cases u GUI.resource_type_ext 0
  refine ⟨?_, ?_, ?_, by decide, ?_⟩
  · intro e hnone
    rcases hcases e with ⟨heq, _⟩ | ⟨j, hj, _, hmatch, _⟩
    · exact heq
    · rw [resource_type_ext_length] at hj
      rw [hnone j hj] at hmatch
      cases hmatch
  · intro e j hj hmatch hbelow
    rcases hcases e with ⟨_, hall⟩ | ⟨j2, hj2, heq, hmatch2, hbelow2⟩
    · rw [hall j (by rw [resource_type_ext_length]; omega)] at hmatch
      cases hmatch
    · have hjj : j2 = j := by
        by_contra hne
        rcases Nat.lt_or_ge j2 j with hlt | hge
        · rw [hbelow j2 hlt] at hmatch2
          cases hmatch2
        · have hlt2 : j < j2 := by omega
          rw [hbelow2 j hlt2] at hmatch
          cases hmatch
      show GUI.tfec_loop e 0 GUI.resource_type_ext = Int.ofNat j
      rw [heq, hjj]
      simp
  · intro t ht
    constructor
    · intro heqt k hk
      rcases hcases (GUI.resource_type_ext.getD t []) with ⟨hm1, _⟩ |
          ⟨j, hj, heq2, hmatch2, hbelow2⟩
      · simp only [GUI.type_from_ext_ci] at heqt
        rw [hm1] at heqt
        cases heqt
      · simp only [GUI.type_from_ext_ci] at heqt
        rw [heq2] at heqt
        have hjt : j = t := by
          have := Int.ofNat_inj.mp heqt
          omega
        subst hjt
        exact hbelow2 k hk
    · intro hbelow
      rcases hcases (GUI.resource_type_ext.getD t []) with ⟨_, hall⟩ |
          ⟨j, hj, heq, hmatch, hbelow2⟩
      · have hc := hall t (by rw [resource_type_ext_length]; omega)
        rw [ciEq_refl] at hc
        cases hc
      · have hjj : j = t := by
          by_contra hne
          rcases Nat.lt_or_ge j t with hlt | hge
          · rw [hbelow j hlt] at hmatch
            cases hmatch
          · have hlt2 : t < j := by omega
            have hc := hbelow2 t hlt2
            rw [ciEq_refl] at hc
            cases hc
        show GUI.tfec_loop (GUI.resource_type_ext.getD t []) 0
          GUI.resource_type_ext = Int.ofNat t
        rw [heq, hjj]
        simp
  · intro ntH p hok hctr
    obtain ⟨hneg, hty⟩ := parse_folder_filename_ok ntH p hok
    rw [hctr] at hty
    have h0 : (0 : Int) ≤ GUI.type_from_ext_ci (GUI.path_extension p) := by
      omega
    have ht33 : GUI.type_from_ext_ci (GUI.path_extension p) = Int.ofNat 33 := by
      rw [hty]
      exact (Int.toNat_of_nonneg h0).symm
    rcases hcases (GUI.path_extension p) with ⟨hm1, _⟩ |
        ⟨j, hj, heq, hmatch, _⟩
    · simp only [GUI.type_from_ext_ci] at ht33
      rw [hm1] at ht33
      cases ht33
    · simp only [GUI.type_from_ext_ci] at ht33
      rw [heq] at ht33
      have hj33 : j = 33 := by
        have := Int.ofNat_inj.mp ht33
        omega
      subst hj33
      have hm2v : GUI.resource_type_ext.getD 33 [] = ("M2V").toList := by decide
      rw [hm2v] at hmatch
      rcases path_extension_shape p with hnil | ⟨rest, hdot⟩
      · rw [hnil] at hmatch
        simp [GUI.ciEq] at hmatch
      · rw [hdot] at hmatch
        simp [GUI.ciEq, GUI.to_upper_char] at hmatch

/-- Claim C10, witness: the ".CSV" round trip at index 35 via the
smallest-match branch, and a concrete hidden-dot file name never decoding
to type 33. -/
theorem C10_type_from_ext_roundtrip_witness :
    GUI.type_from_ext_ci ((".CSV").toList) = Int.ofNat 35 ∧
    ((GUI.parse_folder_filename (fun _ => none)
        (("texture.dds").toList)).ok = true →
      (GUI.parse_folder_filename (fun _ => none)
        (("texture.dds").toList)).ptype ≠ 33) :=
  ⟨C10_type_from_ext_roundtrip.2.1 ((".CSV").toList) 35 (by decide) (by decide)
    (fun k hk => by
      have : k < 35 := hk
      interval_cases k <;> decide),
   C10_type_from_ext_roundtrip.2.2.2.2 (fun _ => none) (("texture.dds").toList)⟩

theorem typeRangeLoop_count (t : Nat) (ht : t < 70) :
    ∀ (l : List GUI.RItem) (i : Nat) (s c : Nat → Nat),
      (GUI.typeRangeLoop l i s c).2 t =
        c t + l.countP fun x => x.rtype == t := by
  intro l
  induction l with
  | nil => intro i s c; simp [GUI.typeRangeLoop]
  | cons x rest ih =>
    intro i s c
    by_cases hx : x.rtype < 70
    · simp only [GUI.typeRangeLoop, if_pos hx]
      rw [ih]
      by_cases hxt : x.rtype = t
      · subst hxt
        rw [Function.update_same]
        simp [List.countP_cons]
        omega
      · rw [Function.update_noteq (Ne.symm hxt)]
        simp [List.countP_cons, hxt]
    · have hxt : x.rtype ≠ t := by omega
      simp only [GUI.typeRangeLoop, if_neg hx]
      rw [ih]
      simp [List.countP_cons, hxt]

theorem typeRangeLoop_start_frozen (t : Nat) :
    ∀ (l : List GUI.RItem) (i : Nat) (s c : Nat → Nat), c t ≠ 0 →
      (GUI.typeRangeLoop l i s c).1 t = s t := by
  intro l
  induction l with
  | nil => intro i s c _; rfl
  | cons x rest ih =>
    intro i s c hc
    by_cases hx : x.rtype < 70
    · simp only [GUI.typeRangeLoop, if_pos hx]
      have hc2 : Function.update c x.rtype (c x.rtype + 1) t ≠ 0 := by
        by_cases hxt : x.rtype = t
        · subst hxt; rw [Function.update_same]; omega
        · rw [Function.update_noteq (Ne.symm hxt)]; exact hc
      rw [ih _ _ _ hc2]
      by_cases hxt : x.rtype = t
      · subst hxt
        rw [if_neg hc]
      · by_cases hc0 : c x.rtype = 0
        · rw [if_pos hc0, Function.update_noteq (Ne.symm hxt)]
        · rw [if_neg hc0]
    · simp only [GUI.typeRangeLoop, if_neg hx]
      exact ih _ _ _ hc

theorem typeRangeLoop_start_absent (t : Nat) :
    ∀ (l : List GUI.RItem) (i : Nat) (s c : Nat → Nat),
      (∀ x ∈ l, x.rtype ≠ t) → (GUI.typeRangeLoop l i s c).1 t = s t := by
  intro l
  induction l with
  | nil => intro i s c _; rfl
  | cons x rest ih =>
    intro i s c habs
    have hxt : x.rtype ≠ t := habs x (List.mem_cons_self _ _)
    have hrest := fun y hy => habs y (List.mem_cons_of_mem x hy)
    by_cases hx : x.rtype < 70
    · simp only [GUI.typeRangeLoop, if_pos hx]
      rw [ih _ _ _ hrest]
      by_cases hc0 : c x.rtype = 0
      · rw [if_pos hc0, Function.update_noteq (Ne.symm hxt)]
      · rw [if_neg hc0]
    · simp only [GUI.typeRangeLoop, if_neg hx]
      exact ih _ _ _ hrest

theorem typeRangeLoop_start_found (t : Nat) (ht : t < 70) :
    ∀ (l : List GUI.RItem) (i : Nat) (s c : Nat → Nat), c t = 0 →
      (∃ x ∈ l, x.rtype = t) →
      (GUI.typeRangeLoop l i s c).1 t =
        i + l.findIdx fun x => x.rtype == t := by
  intro l
  induction l with
  | nil =>
    intro i s c _ hex
    obtain ⟨x, hx, _⟩ := hex
    cases hx
  | cons x rest ih =>
    intro i s c hc hex
    by_cases hxt : x.rtype = t
    · have hx : x.rtype < 70 := by omega
      simp only [GUI.typeRangeLoop, if_pos hx]
      subst hxt
      have hc2 : Function.update c x.rtype (c x.rtype + 1) x.rtype ≠ 0 := by
        rw [Function.update_same]; omega
      rw [typeRangeLoop_start_frozen x.rtype rest (i + 1) _ _ hc2]
      rw [if_pos hc, Function.update_same]
      simp [List.findIdx_cons]
    · have hrest : ∃ y ∈ rest, y.rtype = t := by
        obtain ⟨y, hy, hyt⟩ := hex
        rcases List.mem_cons.mp hy with rfl | hy2
        · exact absurd hyt hxt
        · exact ⟨y, hy2, hyt⟩
      have hfi : (List.findIdx (fun y => y.rtype == t) (x :: rest)) =
          (List.findIdx (fun y => y.rtype == t) rest) + 1 := by
        have hb : (x.rtype == t) = false := beq_eq_false_iff_ne.mpr hxt
        simp [List.findIdx_cons, hb]
      by_cases hx : x.rtype < 70
      · simp only [GUI.typeRangeLoop, if_pos hx]
        have hc2 : Function.update c x.rtype (c x.rtype + 1) t = 0 := by
          rw [Function.update_noteq (Ne.symm hxt)]; exact hc
        rw [ih (i + 1) _ _ hc2 hrest, hfi]
        omega
      · simp only [GUI.typeRangeLoop, if_neg hx]
        rw [ih (i + 1) _ _ hc hrest, hfi]
        omega

theorem itemLe_rtype {x y : GUI.RItem} (h : GUI.itemLe x y) :
    x.rtype ≤ y.rtype := by
  unfold GUI.itemLe at h
  omega

theorem sorted_prefix_iff (t : Nat) :
    ∀ (l : List GUI.RItem), List.Pairwise GUI.itemLe l →
      (∀ x ∈ l, t ≤ x.rtype) →
      ∀ i, (hi : i < l.length) →
        ((l[i]).rtype = t ↔ i < l.countP fun x => x.rtype == t) := by
  intro l
  induction l with
  | nil => intro _ _ i hi; simp at hi
  | cons h rest ih =>
    intro hpw hge i hi
    rw [List.pairwise_cons] at hpw
    by_cases hht : h.rtype = t
    · have hrest_ge : ∀ x ∈ rest, t ≤ x.rtype := fun x hx => by
        have := itemLe_rtype (hpw.1 x hx)
        omega
      have hb : (h.rtype == t) = true := beq_iff_eq.mpr hht
      cases i with
      | zero =>
        rw [List.getElem_cons_zero, List.countP_cons, hb]
        simp only [if_true]
        constructor
        · intro _
          omega
        · intro _
          exact hht
      | succ i2 =>
        have hi2 : i2 < rest.length := by simpa using hi
        have hIH := ih hpw.2 hrest_ge i2 hi2
        rw [List.getElem_cons_succ, List.countP_cons, hb]
        simp only [if_true]
        rw [hIH]
        omega
    · have hgt : t < h.rtype := by
        have := hge h (List.mem_cons_self _ _)
        omega
      have hrest_gt : ∀ x ∈ rest, h.rtype ≤ x.rtype := fun x hx =>
        itemLe_rtype (hpw.1 x hx)
      have hcount : (List.countP (fun x => x.rtype == t) (h :: rest)) = 0 := by
        rw [List.countP_eq_zero]
        intro a ha
        simp only [beq_iff_eq]
        rcases List.mem_cons.mp ha with rfl | ha2
        · omega
        · have := hrest_gt a ha2
          omega
      rw [hcount]
      constructor
      · intro hEq
        exfalso
        cases i with
        | zero =>
          rw [List.getElem_cons_zero] at hEq
          exact hht hEq
        | succ i2 =>
          have hi2 : i2 < rest.length := by simpa using hi
          rw [List.getElem_cons_succ] at hEq
          have hmem : rest[i2] ∈ rest := List.getElem_mem hi2
          have := hrest_gt _ hmem
          omega
      · intro hlt
        omega

theorem sorted_contiguous (t : Nat) :
    ∀ (l : List GUI.RItem), List.Pairwise GUI.itemLe l →
      ∀ i, (hi : i < l.length) →
        ((l[i]).rtype = t ↔
          (l.findIdx fun x => x.rtype == t) ≤ i ∧
          i < (l.findIdx fun x => x.rtype == t) +
            (l.countP fun x => x.rtype == t)) := by
  intro l
  induction l with
  | nil => intro _ i hi; simp at hi
  | cons h rest ih =>
    intro hpw i hi
    have hpw2 := List.pairwise_cons.mp hpw
    by_cases hht : h.rtype = t
    · have hfind : (List.findIdx (fun x => x.rtype == t) (h :: rest)) = 0 := by
        simp [List.findIdx_cons, hht]
      rw [hfind]
      have hge : ∀ x ∈ (h :: rest), t ≤ x.rtype := by
        intro x hx
        rcases List.mem_cons.mp hx with rfl | hx2
        · omega
        · exact le_trans (by omega) (itemLe_rtype (hpw2.1 x hx2))
      have := sorted_prefix_iff t (h :: rest) hpw hge i hi
      rw [this]
      constructor
      · intro hlt
        exact ⟨Nat.zero_le i, by omega⟩
      · intro hc
        omega
    · have hfind : (List.findIdx (fun x => x.rtype == t) (h :: rest)) =
          (List.findIdx (fun x => x.rtype == t) rest) + 1 := by
        have hb : (h.rtype == t) = false := beq_eq_false_iff_ne.mpr hht
        simp [List.findIdx_cons, hb]
      cases i with
      | zero =>
        rw [List.getElem_cons_zero, hfind]
        constructor
        · intro hEq
          exact absurd hEq hht
        · intro hc
          omega
      | succ i2 =>
        have hi2 : i2 < rest.length := by simpa using hi
        have hIH := ih hpw2.2 i2 hi2
        have hb : (h.rtype == t) = false := beq_eq_false_iff_ne.mpr hht
        rw [List.getElem_cons_succ, hfind, List.countP_cons, hb]
        simp only [Bool.false_eq_true, if_false]
        rw [hIH]
        omega

/-- Claim C6 (confirmed): after the folder-sync rebuild sorts the working
set by (type, hash), the recomputed 70-entry tables satisfy: for each type
code t < 70, type_end_idxs[t] (used as a count) is the number of entries of
type t; when t occurs, type_start_idxs[t] is the first sorted index whose
type is t, and the indices holding type t are exactly the consecutive range
[start, start + count); when t is absent the recorded count is 0. -/
theorem C6_type_range_table :
    ∀ (items : List GUI.RItem) (t : Nat), t < 70 →
      ((GUI.computeTypeRanges (GUI.sortItems items)).2 t =
        (GUI.sortItems items).countP fun x => x.rtype == t) ∧
      ((∃ x ∈ GUI.sortItems items, x.rtype = t) →
        (GUI.computeTypeRanges (GUI.sortItems items)).1 t =
          (GUI.sortItems items).findIdx fun x => x.rtype == t) ∧
      (∀ i, (hi : i < (GUI.sortItems items).length) →
        (((GUI.sortItems items)[i]).rtype = t ↔
          (GUI.computeTypeRanges (GUI.sortItems items)).1 t ≤ i ∧
          i < (GUI.computeTypeRanges (GUI.sortItems items)).1 t +
            (GUI.computeTypeRanges (GUI.sortItems items)).2 t)) ∧
      ((∀ x ∈ GUI.sortItems items, x.rtype ≠ t) →
        (GUI.computeTypeRanges (GUI.sortItems items)).2 t = 0) := by
  intro items t ht
  have hpw : List.Pairwise GUI.itemLe (GUI.sortItems items) :=
    List.sorted_insertionSort GUI.itemLe items
  have hcount : (GUI.computeTypeRanges (GUI.sortItems items)).2 t =
      (GUI.sortItems items).countP fun x => x.rtype == t := by
    unfold GUI.computeTypeRanges
    rw [typeRangeLoop_count t ht]
    omega
  have hstart_found : (∃ x ∈ GUI.sortItems items, x.rtype = t) →
      (GUI.computeTypeRanges (GUI.sortItems items)).1 t =
        (GUI.sortItems items).findIdx fun x => x.rtype == t := by
    intro hex
    unfold GUI.computeTypeRanges
    rw [typeRangeLoop_start_found t ht (GUI.sortItems items) 0 _ _ rfl hex]
    simp
  have hstart_absent : (∀ x ∈ GUI.sortItems items, x.rtype ≠ t) →
      (GUI.computeTypeRanges (GUI.sortItems items)).1 t = 0 := by
    intro habs
    unfold GUI.computeTypeRanges
    exact typeRangeLoop_start_absent t (GUI.sortItems items) 0 _ _ habs
  refine ⟨hcount, hstart_found, ?_, ?_⟩
  · intro i hi
    by_cases hex : ∃ x ∈ GUI.sortItems items, x.rtype = t
    · rw [hcount, hstart_found hex]
      exact sorted_contiguous t _ hpw i hi
    · push_neg at hex
      have hc0 : (GUI.sortItems items).countP (fun x => x.rtype == t) = 0 := by
        rw [List.countP_eq_zero]
        intro a ha
        simpa using hex a ha
      rw [hcount, hstart_absent hex, hc0]
      constructor
      · intro hEq
        exact absurd hEq (hex _ (List.getElem_mem hi))
      · intro hc
        omega
  · intro habs
    rw [hcount, List.countP_eq_zero]
    intro a ha
    simpa using habs a ha

/-- Claim C6, witness on a three-item working set with two entries of
type 2 and one of type 3. -/
theorem C6_type_range_table_witness :
    ((GUI.computeTypeRanges (GUI.sortItems
        [⟨9, 3, 5, true, 0, 5⟩, ⟨7, 2, 4, true, 5, 4⟩,
         ⟨8, 2, 6, false, 0, 0⟩])).1 2 =
      (GUI.sortItems [⟨9, 3, 5, true, 0, 5⟩, ⟨7, 2, 4, true, 5, 4⟩,
         ⟨8, 2, 6, false, 0, 0⟩]).findIdx fun x => x.rtype == 2) ∧
    ((GUI.computeTypeRanges (GUI.sortItems
        [⟨9, 3, 5, true, 0, 5⟩, ⟨7, 2, 4, true, 5, 4⟩,
         ⟨8, 2, 6, false, 0, 0⟩])).2 2 =
      (GUI.sortItems [⟨9, 3, 5, true, 0, 5⟩, ⟨7, 2, 4, true, 5, 4⟩,
         ⟨8, 2, 6, false, 0, 0⟩]).countP fun x => x.rtype == 2) :=
  ⟨(C6_type_range_table
      [⟨9, 3, 5, true, 0, 5⟩, ⟨7, 2, 4, true, 5, 4⟩, ⟨8, 2, 6, false, 0, 0⟩]
      2 (by decide)).2.1 ⟨⟨7, 2, 4, true, 5, 4⟩, by decide, rfl⟩,
   (C6_type_range_table
      [⟨9, 3, 5, true, 0, 5⟩, ⟨7, 2, 4, true, 5, 4⟩, ⟨8, 2, 6, false, 0, 0⟩]
      2 (by decide)).1⟩
